import Mathlib

/-!
Verification of the HLB language front-end against its specification.

This file gives a shallow embedding, in Lean 4, of the parts of the HLB
repository that the checked claims are about:

* the progress manager (package `progress`: `manager` and `task`),
* the parser's `NewlinedReader` wrapper,
* the source index (`report.IndexedBuffer`),
* the builtin registry (`report` package tables),
* the semantic checker (`report/semantic.go`).

Pure Go functions become Lean functions; the mutable fields updated by the
Go methods become explicit arguments and results.  Go maps are modelled as
association lists whose lookup returns the first matching entry, Go `nil`
values and error returns become `Option`/`Except`, and a Go runtime panic
(out-of-range slice indexing) is modelled as a distinguished outcome.
-/

/- ------------------------------------------------------------------ -/
/- Progress manager: task state machine (unnamed/part_008)            -/
/- ------------------------------------------------------------------ -/

/-- Task states, mirroring the `TaskStatus` constants of the progress
package (`TaskCreated`, `TaskRunning`, `TaskCached`, `TaskErrored`,
`TaskCanceled`, `TaskCompleted`, `TaskUnknown`). -/
inductive TaskStatus where
  | created
  | running
  | cached
  | errored
  | canceled
  | completed
  | unknown
deriving DecidableEq, Repr

/-- String rendering of a task status, mirroring `TaskStatus.String()`. -/
def taskStatusString : TaskStatus → String
  | .created => "created"
  | .running => "running"
  | .cached => "cached"
  | .errored => "errored"
  | .canceled => "canceled"
  | .completed => "completed"
  | .unknown => "unknown"

/-- Classification of the Go `error` argument passed to `task.Complete`:
either no error, an error satisfying `errors.Is(err, context.Canceled)`,
or any other non-nil error (carrying its message). -/
inductive CompleteErr where
  | none
  | canceled
  | other (msg : String)
deriving DecidableEq, Repr

/-- Status assigned by `(*manager).newTask`: every new task starts in the
`TaskCreated` state. -/
def newTaskStatus : TaskStatus := TaskStatus.created

/-- Translation of `task.Start`: acting on the task's current status, it
fails with an error when the status is not `TaskCreated` (leaving the
status unchanged) and otherwise moves the task to `TaskRunning`. -/
def taskStart (s : TaskStatus) : Except String TaskStatus :=
  if s ≠ TaskStatus.created then
    Except.error ("task already at status: " ++ taskStatusString s)
  else
    Except.ok TaskStatus.running

/-- Translation of `task.Complete`: the new status depends only on the
error argument (canceled for a context-cancellation error, errored for any
other non-nil error, completed on success); the current status `s` is not
inspected. -/
def taskComplete (err : CompleteErr) (_s : TaskStatus) : TaskStatus :=
  match err with
  | .canceled => TaskStatus.canceled
  | .other _ => TaskStatus.errored
  | .none => TaskStatus.completed

/- ------------------------------------------------------------------ -/
/- Progress manager: build status and aggregates (unnamed/part_007)   -/
/- ------------------------------------------------------------------ -/

/-- Build states, mirroring the `BuildStatus` constants of the progress
package. -/
inductive BuildStatus where
  | unknown
  | building
  | finished
  | failed
  | canceled
deriving DecidableEq, Repr

/-- Occurrence of `needle` as a contiguous segment of `hay`. -/
def listHasSegment (hay needle : List Char) : Bool :=
  match hay with
  | [] => needle.isEmpty
  | _ :: rest => needle.isPrefixOf hay || listHasSegment rest needle

/-- Model of Go `strings.Contains(s, sub)`. -/
def goContains (s sub : String) : Bool :=
  listHasSegment s.toList sub.toList

/-- Error combination at the top of `manager.Wait`: the error of the
errgroup (`m.g.Wait()`) takes precedence; when it is nil the error of the
status handler (read from `m.errCh`) is used. -/
def combineWaitErr (gErr handleErr : Option String) : Option String :=
  match gErr with
  | Option.none => handleErr
  | some e => some e

/-- Translation of the status assignment in `manager.Wait`: with a non-nil
combined error whose message does not contain "context canceled" the build
becomes `BuildFailed`, with a cancellation error it becomes
`BuildCanceled`, and with no error it becomes `BuildFinished`. -/
def waitBuildStatus (gErr handleErr : Option String) : BuildStatus :=
  match combineWaitErr gErr handleErr with
  | some msg =>
    if !(goContains msg "context canceled") then BuildStatus.failed
    else BuildStatus.canceled
  | Option.none => BuildStatus.finished

/-- Vertex data used by the progress manager, mirroring the fields of
`client.Vertex` that `manager.Current` inspects. -/
structure GoVertex where
  digest : String
  name : String
  started : Option Nat
  completed : Option Nat
  error : String
deriving DecidableEq, Repr

/-- State owned by the progress `manager`: the task map keyed by vertex
digest and the vertex map keyed by digest. -/
structure ManagerState where
  taskByID : List (String × TaskStatus)
  vtxByDigest : List (String × GoVertex)

/-- Translation of `manager.Current`: walk the vertex map and count every
vertex except those with no completion time or with a non-empty error. -/
def managerCurrent (m : ManagerState) : Nat :=
  (m.vtxByDigest.filter (fun p => !(p.2.completed.isNone || p.2.error ≠ ""))).length

/-- Translation of `manager.Total`: the larger of the task-map size and
the vertex-map size. -/
def managerTotal (m : ManagerState) : Nat :=
  let mn := m.taskByID.length
  if m.vtxByDigest.length > mn then m.vtxByDigest.length else mn

/- ------------------------------------------------------------------ -/
/- Theorems for claims C5, C6, C7                                     -/
/- ------------------------------------------------------------------ -/

/-- C5 counterexample: the claim that tasks transition only along
Created → Running → {Cached, Completed, Errored, Canceled} and that
`Complete` moves a *Running* task is false: `task.Complete` never inspects
the current status, so calling it on a task still in the Created state
moves the task from Created straight to Completed, a transition that skips
Running and is not among the claimed ones. -/
theorem taskComplete_on_created_task :
    taskComplete CompleteErr.none TaskStatus.created = TaskStatus.completed ∧
    TaskStatus.created ≠ TaskStatus.running ∧
    TaskStatus.completed ≠ TaskStatus.created := by
  refine ⟨rfl, by decide, by decide⟩

/-- C5 (amended): every task starts in the Created state; `Start` moves a
Created task to Running and returns an error (leaving the status alone)
whenever the task is not in Created; `Complete` sets the status from the
completion error alone — Canceled on a context-cancellation error, Errored
on any other non-nil error, Completed on success — regardless of the
task's current state, so it can also move a task that is not Running. -/
theorem task_lifecycle :
    newTaskStatus = TaskStatus.created ∧
    taskStart TaskStatus.created = Except.ok TaskStatus.running ∧
    (∀ s : TaskStatus, s ≠ TaskStatus.created →
      taskStart s = Except.error ("task already at status: " ++ taskStatusString s)) ∧
    (∀ s : TaskStatus, taskComplete CompleteErr.canceled s = TaskStatus.canceled) ∧
    (∀ s : TaskStatus, ∀ msg : String,
      taskComplete (CompleteErr.other msg) s = TaskStatus.errored) ∧
    (∀ s : TaskStatus, taskComplete CompleteErr.none s = TaskStatus.completed) := by
  refine ⟨rfl, rfl, ?_, fun s => rfl, fun s msg => rfl, fun s => rfl⟩
  intro s hs
  simp [taskStart, hs]

/-- Witness for `task_lifecycle` at a concrete non-Created status. -/
theorem task_lifecycle_witness :
    taskStart TaskStatus.running = Except.error "task already at status: running" :=
  task_lifecycle.2.2.1 TaskStatus.running (by decide)

/-- C6: when `Wait` returns, the build status is exactly one of Canceled,
Failed, Finished: Finished when the combined error is nil, Canceled when
it is a context-cancellation error (its message contains the string
"context canceled"), and Failed for any other non-nil error. -/
theorem waitBuildStatus_classifies (gErr handleErr : Option String) :
    (waitBuildStatus gErr handleErr = BuildStatus.canceled ∨
     waitBuildStatus gErr handleErr = BuildStatus.failed ∨
     waitBuildStatus gErr handleErr = BuildStatus.finished) ∧
    (combineWaitErr gErr handleErr = Option.none →
      waitBuildStatus gErr handleErr = BuildStatus.finished) ∧
    (∀ msg : String, combineWaitErr gErr handleErr = some msg →
      goContains msg "context canceled" = true →
      waitBuildStatus gErr handleErr = BuildStatus.canceled) ∧
    (∀ msg : String, combineWaitErr gErr handleErr = some msg →
      goContains msg "context canceled" = false →
      waitBuildStatus gErr handleErr = BuildStatus.failed) := by
  unfold waitBuildStatus
  cases h : combineWaitErr gErr handleErr with
  | none =>
    exact ⟨Or.inr (Or.inr rfl), fun _ => rfl,
      fun msg hmsg _ => Option.noConfusion hmsg,
      fun msg hmsg _ => Option.noConfusion hmsg⟩
  | some msg =>
    refine ⟨?_, fun hnone => Option.noConfusion hnone, ?_, ?_⟩
    · by_cases hc : goContains msg "context canceled" = true
      · exact Or.inl (by simp [hc])
      · exact Or.inr (Or.inl (by simp [Bool.eq_false_iff.mpr hc]))
    · intro msg' hmsg' htrue
      obtain rfl : msg = msg' := Option.some.inj hmsg'
      simp [htrue]
    · intro msg' hmsg' hfalse
      obtain rfl : msg = msg' := Option.some.inj hmsg'
      simp [hfalse]

/-- Witness for `waitBuildStatus_classifies` at concrete errors: a nil
combined error yields Finished, a cancellation message yields Canceled,
and another message yields Failed. -/
theorem waitBuildStatus_classifies_witness :
    waitBuildStatus Option.none Option.none = BuildStatus.finished ∧
    waitBuildStatus (some "rpc error: context canceled") Option.none = BuildStatus.canceled ∧
    waitBuildStatus (some "exit status 1") Option.none = BuildStatus.failed := by
  refine ⟨(waitBuildStatus_classifies Option.none Option.none).2.1 rfl,
    (waitBuildStatus_classifies (some "rpc error: context canceled") Option.none).2.2.1
      "rpc error: context canceled" rfl (by decide),
    (waitBuildStatus_classifies (some "exit status 1") Option.none).2.2.2
      "exit status 1" rfl (by decide)⟩

/-- C7: at every observation of the manager's state, `Current` counts only
vertices present in the vertex map, hence is at most the vertex-map size,
and `Total` is the larger of the task-map and vertex-map sizes, so
`Current ≤ Total`. -/
theorem managerCurrent_le_managerTotal (m : ManagerState) :
    managerCurrent m ≤ m.vtxByDigest.length ∧ managerCurrent m ≤ managerTotal m := by
  have hvtx : managerCurrent m ≤ m.vtxByDigest.length :=
    List.length_filter_le _ _
  refine ⟨hvtx, ?_⟩
  unfold managerTotal
  by_cases h : m.vtxByDigest.length > m.taskByID.length
  · simpa [h] using hvtx
  · simp only [h, if_false]
    omega

/- ------------------------------------------------------------------ -/
/- NewlinedReader (linter/linter.go)                                  -/
/- ------------------------------------------------------------------ -/

/-- State of a `NewlinedReader` wrapping an in-memory source: the bytes
the underlying reader has not yet delivered, and the `newlined` counter
(0 before the underlying EOF, 1 once EOF was observed and the synthetic
newline is pending, 2 once it has been delivered). -/
structure NewlinedReader where
  rest : List Char
  newlined : Nat
deriving DecidableEq, Repr

/-- Construction of the wrapper in `parser.Parse`: the whole input is
still pending and no EOF has been observed. -/
def newNewlinedReader (input : List Char) : NewlinedReader :=
  { rest := input, newlined := 0 }

/-- Translation of `NewlinedReader.Read` for a destination buffer of
capacity `cap`: returns the bytes written, `some ()` when the call
reports `io.EOF`, and the successor state.  The underlying reader is the
standard in-memory one: it yields up to `cap` pending bytes with a nil
error and reports `io.EOF` once nothing is pending (the case the code
turns into a nil-error return that arms the synthetic newline).  The code
writes the synthetic newline into `p[0]`, so callers always pass a buffer
with `cap ≥ 1`. -/
def nrRead (cap : Nat) (nr : NewlinedReader) : List Char × Option Unit × NewlinedReader :=
  if nr.newlined > 1 then
    ([], some (), nr)
  else if nr.newlined = 1 then
    (['\n'], Option.none, { nr with newlined := 2 })
  else
    match nr.rest with
    | [] => ([], Option.none, { nr with newlined := 1 })
    | l => (l.take cap, Option.none, { nr with rest := l.drop cap })

/-- Driver that reads the wrapped source to exhaustion: it calls `nrRead`
until an `io.EOF` result (second component `true`) or until the fuel runs
out (second component `false`), collecting all bytes delivered and the
reader state at the end. -/
def nrReadAll (cap : Nat) : Nat → NewlinedReader → List Char × Bool × NewlinedReader
  | 0, nr => ([], false, nr)
  | fuel + 1, nr =>
    match nrRead cap nr with
    | (_, some _, nr') => ([], true, nr')
    | (bs, Option.none, nr') =>
      let r := nrReadAll cap fuel nr'
      (bs ++ r.1, r.2.1, r.2.2)

/-- Helper lemma: once the underlying input is exhausted, three more reads
deliver exactly the synthetic newline and then EOF. -/
theorem nrReadAll_drained (cap fuel : Nat) (hfuel : 3 ≤ fuel) :
    nrReadAll cap fuel { rest := [], newlined := 0 } =
      (['\n'], true, { rest := [], newlined := 2 }) := by
  obtain ⟨f, rfl⟩ : ∃ f, fuel = f + 3 := ⟨fuel - 3, by omega⟩
  simp [nrReadAll, nrRead]

/-- Helper lemma: reading everything from a reader with pending input and
sufficient fuel yields the input followed by the synthetic newline. -/
theorem nrReadAll_spec_aux (cap : Nat) (hcap : 1 ≤ cap) :
    ∀ n : Nat, ∀ input : List Char, input.length ≤ n → ∀ fuel : Nat,
      input.length + 3 ≤ fuel →
      nrReadAll cap fuel { rest := input, newlined := 0 } =
        (input ++ ['\n'], true, { rest := [], newlined := 2 }) := by
  intro n
  induction n with
  | zero =>
    intro input hlen fuel hfuel
    have hin : input = [] := List.length_eq_zero.mp (Nat.le_antisymm hlen (Nat.zero_le _))
    subst hin
    simpa using nrReadAll_drained cap fuel (by simpa using hfuel)
  | succ n ih =>
    intro input hlen fuel hfuel
    match input with
    | [] => simpa using nrReadAll_drained cap fuel (by simpa using hfuel)
    | c :: cs =>
      obtain ⟨f, rfl⟩ : ∃ f, fuel = f + 1 := ⟨fuel - 1, by omega⟩
      have hstep : nrRead cap { rest := c :: cs, newlined := 0 } =
          ((c :: cs).take cap, Option.none,
            { rest := (c :: cs).drop cap, newlined := 0 }) := by
        simp [nrRead]
      have hlendrop : ((c :: cs).drop cap).length = (c :: cs).length - cap :=
        List.length_drop cap (c :: cs)
      have hrec := ih ((c :: cs).drop cap)
        (by simp only [hlendrop, List.length_cons] at *; omega)
        f (by simp only [hlendrop, List.length_cons] at *; omega)
      have hfold : nrReadAll cap (f + 1) { rest := c :: cs, newlined := 0 } =
          ((c :: cs).take cap ++ (((c :: cs).drop cap) ++ ['\n']), true,
            { rest := [], newlined := 2 }) := by
        rw [nrReadAll, hstep]
        simp only [hrec]
      simpa [← List.append_assoc, List.take_append_drop] using hfold

/-- C9: for every input byte sequence that does not end with a newline,
reading the parser's wrapped source reader until EOF yields exactly the
original bytes followed by one synthetic final newline, and the reader
then reports EOF (and keeps reporting it). -/
theorem newlinedReader_appends_newline (input : List Char) (cap fuel : Nat)
    (hcap : 1 ≤ cap) (_hnl : input.getLast? ≠ some '\n')
    (hfuel : input.length + 3 ≤ fuel) :
    nrReadAll cap fuel (newNewlinedReader input) =
      (input ++ ['\n'], true, { rest := [], newlined := 2 }) ∧
    nrRead cap { rest := [], newlined := 2 } =
      ([], some (), { rest := [], newlined := 2 }) := by
  refine ⟨?_, by simp [nrRead]⟩
  exact nrReadAll_spec_aux cap hcap input.length input (Nat.le_refl _) fuel hfuel

/-- Witness for `newlinedReader_appends_newline`: the three-byte input
"abc" read with capacity 512 yields "abc" plus one newline, then EOF. -/
theorem newlinedReader_appends_newline_witness :
    nrReadAll 512 6 (newNewlinedReader ['a', 'b', 'c']) =
      (['a', 'b', 'c', '\n'], true, { rest := [], newlined := 2 }) ∧
    nrRead 512 { rest := [], newlined := 2 } =
      ([], some (), { rest := [], newlined := 2 }) :=
  newlinedReader_appends_newline ['a', 'b', 'c'] 512 6 (by decide) (by decide) (by decide)

/- ------------------------------------------------------------------ -/
/- Source index: IndexedBuffer (unnamed/part_006, package report)     -/
/- ------------------------------------------------------------------ -/

/-- Newline offsets recorded by `IndexedBuffer.Write`: the loop scans the
written chunk with `bytes.IndexByte` and appends the absolute offset of
every `'\n'` found, in increasing order.  `pos` is the absolute offset of
the first character of the remaining chunk. -/
def scanNewlines : List Char → Nat → List Nat
  | [], _ => []
  | c :: cs, pos =>
    if c = '\n' then pos :: scanNewlines cs (pos + 1)
    else scanNewlines cs (pos + 1)

/-- State of a `report.IndexedBuffer`: the accumulated bytes, the running
write offset, and the recorded newline offsets. -/
structure IndexedBuffer where
  buf : List Char
  offset : Nat
  offsets : List Nat
deriving DecidableEq, Repr

/-- An `IndexedBuffer` produced by `NewIndexedBuffer` followed by one
`Write` of the whole file `p`. -/
def ibWrite (p : List Char) : IndexedBuffer :=
  { buf := p, offset := p.length, offsets := scanNewlines p 0 }

/-- Translation of `IndexedBuffer.Len`: the number of recorded newline
offsets. -/
def ibLen (ib : IndexedBuffer) : Nat :=
  ib.offsets.length

/-- Translation of `IndexedBuffer.read(start, end)`: seek to `start` and
read `end - start` bytes (fewer when the buffer ends first). -/
def ibReadRange (ib : IndexedBuffer) (start stop : Nat) : List Char :=
  (ib.buf.drop start).take (stop - start)

/-- Translation of `IndexedBuffer.Line(num)`: error (`Option.none`) when
`num` exceeds the offset count; otherwise the segment from the byte after
offset `num-1` (or 0 when `num = 0`) up to offset `num` (offset 0 when
`num = 0`).  The indexing expressions `ib.offsets[num-1]`, `ib.offsets[0]`
and `ib.offsets[num]` are Go slice accesses that panic when out of range;
an out-of-range access is modelled as `Option.none` as well. -/
def ibLine (ib : IndexedBuffer) (num : Nat) : Option (List Char) :=
  if num > ib.offsets.length then Option.none
  else
    match (match num with
           | 0 => some 0
           | m + 1 => (ib.offsets[m]?).map (· + 1)),
          (match num with
           | 0 => ib.offsets[0]?
           | m + 1 => ib.offsets[m + 1]?) with
    | some s, some e => some (ibReadRange ib s e)
    | _, _ => Option.none

/-- Reference notion of the lines of a buffer: the segments obtained by
splitting at every newline (each line excludes its terminating newline;
a trailing segment after the last newline is included, possibly empty). -/
def linesOf : List Char → List (List Char)
  | [] => [[]]
  | c :: cs =>
    if c = '\n' then [] :: linesOf cs
    else
      match linesOf cs with
      | [] => [[c]]
      | l :: ls => (c :: l) :: ls

/-- Shifting the scan start adds a constant to every recorded offset. -/
theorem scanNewlines_shift (p : List Char) :
    ∀ pos : Nat, scanNewlines p pos = (scanNewlines p 0).map (· + pos) := by
  induction p with
  | nil => intro pos; simp [scanNewlines]
  | cons c cs ih =>
    intro pos
    by_cases hc : c = '\n'
    · simp only [scanNewlines, if_pos hc, ih (pos + 1), ih 1, List.map_cons,
        List.map_map]
      congr 1
      · omega
      apply List.map_congr_left
      intro x _
      simp [Function.comp]
      omega
    · simp only [scanNewlines, if_neg hc, ih (pos + 1), ih 1, List.map_map]
      apply List.map_congr_left
      intro x _
      simp [Function.comp]
      omega

/-- A chunk without newlines records no offsets. -/
theorem scanNewlines_of_not_mem (a : List Char) (ha : '\n' ∉ a) :
    ∀ pos : Nat, scanNewlines a pos = [] := by
  induction a with
  | nil => intro pos; simp [scanNewlines]
  | cons c cs ih =>
    intro pos
    have hc : c ≠ '\n' := fun h => ha (by simp [h])
    have hcs : '\n' ∉ cs := fun h => ha (List.mem_cons_of_mem _ h)
    simp [scanNewlines, hc, ih hcs]

/-- Offsets of a buffer split at its first newline. -/
theorem scanNewlines_split (a b : List Char) (ha : '\n' ∉ a) :
    scanNewlines (a ++ '\n' :: b) 0 =
      a.length :: (scanNewlines b 0).map (· + (a.length + 1)) := by
  induction a with
  | nil => simp [scanNewlines, scanNewlines_shift b 1]
  | cons c cs ih =>
    have hc : c ≠ '\n' := fun h => ha (by simp [h])
    have hcs : '\n' ∉ cs := fun h => ha (List.mem_cons_of_mem _ h)
    rw [List.cons_append]
    rw [show scanNewlines (c :: (cs ++ '\n' :: b)) 0 =
        scanNewlines (cs ++ '\n' :: b) 1 by simp [scanNewlines, hc]]
    rw [scanNewlines_shift (cs ++ '\n' :: b) 1, ih hcs]
    simp only [List.map_cons, List.map_map, List.length_cons]
    have hfun : ((fun x => x + 1) ∘ fun x => x + (cs.length + 1)) =
        (fun x : Nat => x + (cs.length + 1 + 1)) := by
      funext x
      simp only [Function.comp_apply]
      omega
    rw [hfun]

/-- Lines of a buffer split at its first newline. -/
theorem linesOf_split (a b : List Char) (ha : '\n' ∉ a) :
    linesOf (a ++ '\n' :: b) = a :: linesOf b := by
  induction a with
  | nil => simp [linesOf]
  | cons c cs ih =>
    have hc : c ≠ '\n' := fun h => ha (by simp [h])
    have hcs : '\n' ∉ cs := fun h => ha (List.mem_cons_of_mem _ h)
    rw [List.cons_append]
    rw [show linesOf (c :: (cs ++ '\n' :: b)) =
        (match linesOf (cs ++ '\n' :: b) with
          | [] => [[c]]
          | l :: ls => (c :: l) :: ls) by simp [linesOf, hc]]
    rw [ih hcs]

/-- A buffer whose scan records an offset contains a newline. -/
theorem mem_newline_of_scan_ne_nil (p : List Char)
    (h : scanNewlines p 0 ≠ []) : '\n' ∈ p := by
  by_contra hmem
  exact h (scanNewlines_of_not_mem p hmem 0)

/-- Decomposition of a list at its first newline. -/
theorem exists_newline_split (p : List Char) (h : '\n' ∈ p) :
    ∃ a b, p = a ++ '\n' :: b ∧ '\n' ∉ a := by
  induction p with
  | nil => cases h
  | cons c cs ih =>
    by_cases hc : c = '\n'
    · exact ⟨[], cs, by simp [hc], by simp⟩
    · have hcs : '\n' ∈ cs := by
        rcases List.mem_cons.mp h with h1 | h2
        · exact absurd h1.symm hc
        · exact h2
      obtain ⟨a, b, hab, hna⟩ := ih hcs
      refine ⟨c :: a, b, by simp [hab], ?_⟩
      intro hmem
      rcases List.mem_cons.mp hmem with h1 | h2
      · exact hc h1.symm
      · exact hna h2

/-- Reading line 0 of a buffer that starts with a newline-free segment
returns that segment. -/
theorem ibLine_split_zero (a b : List Char) (ha : '\n' ∉ a) :
    ibLine (ibWrite (a ++ '\n' :: b)) 0 = some a := by
  unfold ibLine ibWrite ibReadRange
  rw [scanNewlines_split a b ha]
  simp

/-- Reading line `n + 1` of a buffer whose first line is the newline-free
segment `a` is reading line `n` of the rest of the buffer. -/
theorem ibLine_split_succ (a b : List Char) (ha : '\n' ∉ a) (n : Nat) :
    ibLine (ibWrite (a ++ '\n' :: b)) (n + 1) = ibLine (ibWrite b) n := by
  have happ : a ++ '\n' :: b = (a ++ ['\n']) ++ b := by simp
  have hdropb : ∀ k : Nat, (a ++ '\n' :: b).drop (k + (a.length + 1)) = b.drop k := by
    intro k
    rw [happ]
    have hlen : (a ++ ['\n']).length = a.length + 1 := by simp
    calc ((a ++ ['\n']) ++ b).drop (k + (a.length + 1))
        = ((a ++ ['\n']) ++ b).drop ((a ++ ['\n']).length + k) := by rw [hlen]; ring_nf
      _ = b.drop k := List.drop_append k
  unfold ibLine ibWrite ibReadRange
  rw [scanNewlines_split a b ha]
  simp only [List.length_cons, List.length_map]
  by_cases hg : n > (scanNewlines b 0).length
  · rw [if_pos (by omega), if_pos hg]
  · rw [if_neg (by omega), if_neg hg]
    cases n with
    | zero =>
      cases hsb : (scanNewlines b 0)[0]? with
      | none => simp [hsb]
      | some e =>
        simp only [List.getElem?_cons_zero, List.getElem?_cons_succ,
          List.getElem?_map, hsb, Option.map_some']
        rw [show e + (a.length + 1) - (a.length + 1) = e by omega,
          show (a ++ '\n' :: b).drop (a.length + 1) = b.drop 0 from by
            simpa using hdropb 0]
        simp
    | succ m =>
      simp only [List.getElem?_cons_succ, List.getElem?_map]
      cases hm : (scanNewlines b 0)[m]? with
      | none =>
        cases hm1 : (scanNewlines b 0)[m + 1]? with
        | none => simp [hm, hm1]
        | some e => simp [hm, hm1]
      | some s =>
        cases hm1 : (scanNewlines b 0)[m + 1]? with
        | none => simp [hm, hm1]
        | some e =>
          simp only [hm, hm1, Option.map_some']
          rw [show s + (a.length + 1) + 1 = (s + 1) + (a.length + 1) by omega,
            hdropb (s + 1),
            show e + (a.length + 1) - ((s + 1) + (a.length + 1)) = e - (s + 1) by
              omega]

/-- C8 counterexample: lines are not addressed by 1-based number.  For the
ingested buffer "ab\ncd\n" the line count is 2, the first line is "ab",
yet `Line(1)` returns the second line "cd" rather than the first, and
`Line(2)` — in range under 1-based addressing — does not return a line at
all (the Go code indexes `offsets[2]` out of range). -/
theorem ibLine_is_not_one_based :
    ibLen (ibWrite ['a', 'b', '\n', 'c', 'd', '\n']) = 2 ∧
    (linesOf ['a', 'b', '\n', 'c', 'd', '\n'])[0]? = some ['a', 'b'] ∧
    ibLine (ibWrite ['a', 'b', '\n', 'c', 'd', '\n']) 1 = some ['c', 'd'] ∧
    ibLine (ibWrite ['a', 'b', '\n', 'c', 'd', '\n']) 1 ≠ some ['a', 'b'] ∧
    ibLine (ibWrite ['a', 'b', '\n', 'c', 'd', '\n']) 2 = Option.none := by
  refine ⟨rfl, rfl, rfl, by decide, rfl⟩

/-- C8 (amended): lines are addressed by 0-based number — for every
ingested buffer and every `n` below the number of recorded newline
offsets, `Line(n)` returns the bytes of the `(n+1)`-th line of the buffer,
that is, entry `n` of the buffer split at its newlines. -/
theorem ibLine_zero_based :
    ∀ (n : Nat) (p : List Char), n < (scanNewlines p 0).length →
      n < (linesOf p).length ∧ ibLine (ibWrite p) n = (linesOf p)[n]? := by
  intro n
  induction n with
  | zero =>
    intro p h
    have hne : scanNewlines p 0 ≠ [] := by
      intro h0
      rw [h0] at h
      exact absurd h (by simp)
    obtain ⟨a, b, rfl, hna⟩ :=
      exists_newline_split p (mem_newline_of_scan_ne_nil p hne)
    rw [linesOf_split a b hna]
    exact ⟨by simp, by rw [ibLine_split_zero a b hna]; simp⟩
  | succ m ih =>
    intro p h
    have hne : scanNewlines p 0 ≠ [] := by
      intro h0
      rw [h0] at h
      exact absurd h (by simp)
    obtain ⟨a, b, rfl, hna⟩ :=
      exists_newline_split p (mem_newline_of_scan_ne_nil p hne)
    rw [scanNewlines_split a b hna] at h
    have hb : m < (scanNewlines b 0).length := by
      simp only [List.length_cons, List.length_map] at h
      omega
    obtain ⟨h1, h2⟩ := ih b hb
    rw [linesOf_split a b hna, ibLine_split_succ a b hna m]
    exact ⟨by simpa using Nat.succ_lt_succ h1, by simpa using h2⟩

/-- Witness for `ibLine_zero_based` on the concrete buffer "x\n". -/
theorem ibLine_zero_based_witness :
    0 < (linesOf ['x', '\n']).length ∧
    ibLine (ibWrite ['x', '\n']) 0 = (linesOf ['x', '\n'])[0]? :=
  ibLine_zero_based 0 ['x', '\n'] (by decide)

/- ------------------------------------------------------------------ -/
/- Parser type model shared by the registry and the checker           -/
/- ------------------------------------------------------------------ -/

/-- Modelled from the spec: `parser.ObjType` values (the parser package
itself is not in the sources).  A type is a primitive (`string`, `int`,
`bool`, `fs`, `option`) or a qualified option type `option::<op>`; the
constructor `optionOf op` stands for the Go string constant built by
`fmt.Sprintf("%s::%s", parser.Option, op)`. -/
inductive ObjType where
  | filesystem
  | str
  | int
  | bool
  | option
  | optionOf (op : String)
deriving DecidableEq, Repr

/-- Modelled from the spec: the primitive kind of an `ObjType` — a
qualified option type has primitive kind `option`, every other type is its
own kind.  This is what `parser.Type.Type()` returns. -/
def primaryType : ObjType → ObjType
  | .optionOf _ => ObjType.option
  | t => t

/-- Modelled from the spec: a `parser.Type` node carrying its `ObjType`. -/
structure PTy where
  objType : ObjType
deriving DecidableEq, Repr

/-- Modelled from the spec: `parser.Type.Type()`. -/
def PTy.ty (t : PTy) : ObjType := primaryType t.objType

/-- Modelled from the spec: `parser.Type.SubType()`, the `<op>` of a
qualified option type and "" otherwise. -/
def PTy.subType (t : PTy) : String :=
  match t.objType with
  | .optionOf s => s
  | _ => ""

/-- Modelled from the spec: `parser.Type.Equals(o)` — structural equality
of the primitive kinds, so that every `option::<op>` type equals `option`
(the semantic checker relies on this to route qualified option blocks to
the option checker). -/
def PTy.equals (t : PTy) (o : ObjType) : Bool :=
  primaryType t.objType == primaryType o

/-- Modelled from the spec: a `parser.Field` (parameter or builtin
signature entry): type, name and variadic flag. -/
structure PField where
  ty : PTy
  name : String
  variadic : Bool
deriving DecidableEq, Repr

/-- Translation of `parser.NewField(typ, name, variadic)`. -/
def newField (t : ObjType) (name : String) (variadic : Bool) : PField :=
  { ty := { objType := t }, name := name, variadic := variadic }

/- ------------------------------------------------------------------ -/
/- Builtin registry (unnamed/part_006, package report)                -/
/- ------------------------------------------------------------------ -/

/-- Translation of the `Sources` table. -/
def Sources : List String := ["scratch", "image", "http", "git", "local", "generate"]

/-- Translation of the `Ops` table. -/
def Ops : List String :=
  ["shell", "run", "env", "dir", "user", "entrypoint", "mkdir", "mkfile", "rm", "copy"]

/-- Translation of the `Debugs` table. -/
def Debugs : List String := ["breakpoint"]

/-- Translation of `flatMap`: concatenation with first-occurrence
deduplication. -/
def flatMapGo (arrays : List (List String)) : List String :=
  arrays.flatten.eraseDups

/-- Translation of the per-namespace option tables. -/
def CommonOptions : List String := ["no-cache"]

/-- Translation of `ImageOptions`. -/
def ImageOptions : List String := ["resolve"]

/-- Translation of `HTTPOptions`. -/
def HTTPOptions : List String := ["checksum", "chmod", "filename"]

/-- Translation of `GitOptions`. -/
def GitOptions : List String := ["keepGitDir"]

/-- Translation of `LocalOptions`. -/
def LocalOptions : List String := ["includePatterns", "excludePatterns", "followPaths"]

/-- Translation of `GenerateOptions`. -/
def GenerateOptions : List String := ["frontendInput", "frontendOpt"]

/-- Translation of `RunOptions`. -/
def RunOptions : List String :=
  ["readonlyRootfs", "env", "dir", "user", "network", "security", "host",
   "ssh", "secret", "mount"]

/-- Translation of `SSHOptions`. -/
def SSHOptions : List String := ["target", "id", "uid", "gid", "mode", "optional"]

/-- Translation of `SecretOptions`. -/
def SecretOptions : List String := ["id", "uid", "gid", "mode", "optional"]

/-- Translation of `MountOptions`. -/
def MountOptions : List String := ["readonly", "tmpfs", "sourcePath", "cache"]

/-- Translation of `MkdirOptions`. -/
def MkdirOptions : List String := ["createParents", "chown", "createdTime"]

/-- Translation of `MkfileOptions`. -/
def MkfileOptions : List String := ["chown", "createdTime"]

/-- Translation of `RmOptions`. -/
def RmOptions : List String := ["allowNotFound", "allowWildcard"]

/-- Translation of `CopyOptions`. -/
def CopyOptions : List String :=
  ["followSymlinks", "contentsOnly", "unpack", "createDestPath",
   "allowWildcard", "allowEmptyWildcard", "chown", "createdTime"]

/-- Translation of `NetworkModes`. -/
def NetworkModes : List String := ["unset", "host", "none"]

/-- Translation of `SecurityModes`. -/
def SecurityModes : List String := ["sandbox", "insecure"]

/-- Translation of `CacheSharingModes`. -/
def CacheSharingModes : List String := ["shared", "private", "locked"]

/-- Translation of the `KeywordsByName` map. -/
def KeywordsByName : List (String × List String) :=
  [("fs", Ops),
   ("image", flatMapGo [CommonOptions, ImageOptions]),
   ("http", flatMapGo [CommonOptions, HTTPOptions]),
   ("git", flatMapGo [CommonOptions, GitOptions]),
   ("local", flatMapGo [CommonOptions, LocalOptions]),
   ("generate", flatMapGo [CommonOptions, GenerateOptions]),
   ("run", flatMapGo [CommonOptions, RunOptions]),
   ("ssh", flatMapGo [CommonOptions, SSHOptions]),
   ("secret", flatMapGo [CommonOptions, SecretOptions]),
   ("mount", flatMapGo [CommonOptions, MountOptions]),
   ("mkdir", flatMapGo [CommonOptions, MkdirOptions]),
   ("mkfile", flatMapGo [CommonOptions, MkfileOptions]),
   ("rm", flatMapGo [CommonOptions, RmOptions]),
   ("copy", flatMapGo [CommonOptions, CopyOptions]),
   ("network", NetworkModes),
   ("security", SecurityModes),
   ("cache", CacheSharingModes)]

/-- Lookup in `KeywordsByName`; a missing key yields the empty list, as a
Go map lookup yields nil. -/
def lookupKeywords (op : String) : List String :=
  ((KeywordsByName.find? (fun p => p.1 == op)).map (fun p => p.2)).getD []

/-- Translation of the `BuiltinSources` map. -/
def BuiltinSources : ObjType → List String
  | .filesystem => Sources
  | .str => ["value", "format"]
  | _ => []

/-- Translation of the `Builtins` table: for each return type, the
signature (ordered field list) of every builtin operation; a Go `nil`
field list is the empty list. -/
def Builtins : List (ObjType × List (String × List PField)) :=
  [(ObjType.filesystem,
    [("breakpoint", []),
     ("scratch", []),
     ("image", [newField ObjType.str "ref" false]),
     ("http", [newField ObjType.str "url" false]),
     ("git", [newField ObjType.str "remote" false, newField ObjType.str "ref" false]),
     ("local", [newField ObjType.str "path" false]),
     ("generate", [newField ObjType.filesystem "frontend" false]),
     ("shell", [newField ObjType.str "arg" true]),
     ("run", [newField ObjType.str "arg" true]),
     ("env", [newField ObjType.str "key" false, newField ObjType.str "value" false]),
     ("dir", [newField ObjType.str "path" false]),
     ("user", [newField ObjType.str "name" false]),
     ("entrypoint", [newField ObjType.str "command" true]),
     ("mkdir", [newField ObjType.str "path" false, newField ObjType.int "filemode" false]),
     ("mkfile", [newField ObjType.str "path" false, newField ObjType.int "filemode" false,
                 newField ObjType.str "content" false]),
     ("rm", [newField ObjType.str "path" false]),
     ("copy", [newField ObjType.filesystem "input" false, newField ObjType.str "src" false,
               newField ObjType.str "dest" false])]),
   (ObjType.str,
    [("value", [newField ObjType.str "literal" false]),
     ("format", [newField ObjType.str "format" false, newField ObjType.str "values" true])]),
   (ObjType.option,
    [("no-cache", [])]),
   (ObjType.optionOf "image",
    [("resolve", [])]),
   (ObjType.optionOf "http",
    [("checksum", [newField ObjType.str "digest" false]),
     ("chmod", [newField ObjType.int "filemode" false]),
     ("filename", [newField ObjType.str "name" false])]),
   (ObjType.optionOf "git",
    [("keepGitDir", [])]),
   (ObjType.optionOf "local",
    [("includePatterns", [newField ObjType.str "patterns" true]),
     ("excludePatterns", [newField ObjType.str "patterns" true]),
     ("followPaths", [newField ObjType.str "paths" true])]),
   (ObjType.optionOf "generate",
    [("frontendInput", [newField ObjType.str "key" false,
                        newField ObjType.filesystem "value" false]),
     ("frontendOpt", [newField ObjType.str "key" false, newField ObjType.str "value" false])]),
   (ObjType.optionOf "run",
    [("readonlyRootfs", []),
     ("env", [newField ObjType.str "key" false, newField ObjType.str "value" false]),
     ("dir", [newField ObjType.str "path" false]),
     ("user", [newField ObjType.str "name" false]),
     ("network", [newField ObjType.str "networkmode" false]),
     ("security", [newField ObjType.str "securitymode" false]),
     ("host", [newField ObjType.str "hostname" false, newField ObjType.str "address" false]),
     ("ssh", []),
     ("secret", [newField ObjType.str "mountpoint" false]),
     ("mount", [newField ObjType.filesystem "input" false,
                newField ObjType.str "mountpoint" false])]),
   (ObjType.optionOf "ssh",
    [("target", [newField ObjType.str "path" false]),
     ("id", [newField ObjType.str "cacheid" false]),
     ("uid", [newField ObjType.int "value" false]),
     ("gid", [newField ObjType.int "value" false]),
     ("mode", [newField ObjType.int "filemode" false]),
     ("optional", [])]),
   (ObjType.optionOf "secret",
    [("id", [newField ObjType.str "cacheid" false]),
     ("uid", [newField ObjType.int "value" false]),
     ("gid", [newField ObjType.int "value" false]),
     ("mode", [newField ObjType.int "filemode" false]),
     ("optional", [])]),
   (ObjType.optionOf "mount",
    [("readonly", []),
     ("tmpfs", []),
     ("sourcePath", [newField ObjType.str "path" false]),
     ("cache", [newField ObjType.str "cacheid" false,
                newField ObjType.str "cachemode" false])]),
   (ObjType.optionOf "mkdir",
    [("createParents", []),
     ("chown", [newField ObjType.str "owner" false]),
     ("createdTime", [newField ObjType.str "created" false])]),
   (ObjType.optionOf "mkfile",
    [("chown", [newField ObjType.str "owner" false]),
     ("createdTime", [newField ObjType.str "created" false])]),
   (ObjType.optionOf "rm",
    [("allowNotFound", []),
     ("allowWildcards", [])]),
   (ObjType.optionOf "copy",
    [("followSymlinks", []),
     ("contentsOnly", []),
     ("unpack", []),
     ("createDestPath", [])])]

/-- Inner table of `Builtins` for a return type; a missing type yields the
empty table. -/
def builtinsFor (t : ObjType) : List (String × List PField) :=
  ((Builtins.find? (fun p => p.1 == t)).map (fun p => p.2)).getD []

/-- Signature lookup `Builtins[t][name]`; missing entries yield nil,
modelled as the empty field list. -/
def builtinsLookup (t : ObjType) (name : String) : List PField :=
  (((builtinsFor t).find? (fun p => p.1 == name)).map (fun p => p.2)).getD []

/-- Presence of a signature entry for `name` under return type `t`. -/
def builtinsHasKey (t : ObjType) (name : String) : Bool :=
  ((builtinsFor t).find? (fun p => p.1 == name)).isSome

/-- Option namespaces of the registry (the keys of `KeywordsByName` built
from per-namespace option lists). -/
def optionNamespaces : List String :=
  ["image", "http", "git", "local", "generate", "run", "ssh", "secret",
   "mount", "mkdir", "mkfile", "rm", "copy"]

/-- Consistency of the registry in the sense of claim C2: in every option
namespace, every name of the namespace table has a signature entry for the
corresponding option type (common options may have theirs under the shared
`option` type), and conversely every signature entry's name appears in the
namespace table. -/
def registryConsistent : Bool :=
  optionNamespaces.all (fun ns =>
    ((lookupKeywords ns).all (fun name =>
      builtinsHasKey (ObjType.optionOf ns) name || builtinsHasKey ObjType.option name)) &&
    ((builtinsFor (ObjType.optionOf ns)).all (fun p => (lookupKeywords ns).contains p.1)))

/-- C2: the builtin registry is not consistent.  In namespace `rm` the
table lists `allowWildcard` but the signature table only has an entry
spelled `allowWildcards`, which in turn appears in no namespace table; in
namespace `copy` the options `allowWildcard`, `allowEmptyWildcard`,
`chown` and `createdTime` have no signature entry at all. -/
theorem builtinRegistry_inconsistent :
    registryConsistent = false ∧
    "allowWildcard" ∈ lookupKeywords "rm" ∧
    builtinsHasKey (ObjType.optionOf "rm") "allowWildcard" = false ∧
    builtinsHasKey ObjType.option "allowWildcard" = false ∧
    builtinsHasKey (ObjType.optionOf "rm") "allowWildcards" = true ∧
    "allowWildcards" ∉ lookupKeywords "rm" ∧
    "chown" ∈ lookupKeywords "copy" ∧
    builtinsHasKey (ObjType.optionOf "copy") "chown" = false ∧
    "allowEmptyWildcard" ∈ lookupKeywords "copy" ∧
    builtinsHasKey (ObjType.optionOf "copy") "allowEmptyWildcard" = false := by
  refine ⟨by decide, by decide, by decide, by decide, by decide, by decide,
    by decide, by decide, by decide, by decide⟩

/- ------------------------------------------------------------------ -/
/- AST and scope model for the semantic checker                       -/
/- ------------------------------------------------------------------ -/

/-- Modelled from the spec: a `parser.Ident` — its text and its source
position (positions are abstracted to a single number; the checker only
carries them into diagnostics). -/
structure Ident where
  text : String
  pos : Nat
deriving DecidableEq, Repr

/-- Modelled from the spec: a `parser.BasicLit` — exactly one of the
`Str`, `Decimal`, `Numeric`, `Bool` fields is set. -/
inductive BasicLit where
  | strLit (s : String)
  | decimalLit (n : Int)
  | numericLit (n : Int) (base : Nat)
  | boolLit (b : Bool)
deriving DecidableEq, Repr

/-- Modelled from the spec: `parser.BasicLit.ObjType()`. -/
def basicLitObjType : BasicLit → ObjType
  | .strLit _ => ObjType.str
  | .decimalLit _ => ObjType.int
  | .numericLit _ _ => ObjType.int
  | .boolLit _ => ObjType.bool

mutual
/-- Modelled from the spec: a `parser.CallStmt` — callee name (`Func` may
be nil), argument expressions, optional `with` clause, optional `as`
alias ident. -/
inductive CallStmt where
  | mk (func : Option String) (args : List Expr) (withOpt : Option WithClause)
      (asClause : Option Ident)

/-- Modelled from the spec: the `with` clause of a call — an identifier
or a function literal. -/
inductive WithClause where
  | identClause (name : String)
  | funcLitClause (lit : FuncLit)

/-- Modelled from the spec: a `parser.Expr` — identifier, basic literal
or function literal. -/
inductive Expr where
  | identExpr (name : String)
  | basicLitExpr (lit : BasicLit)
  | funcLitExpr (lit : FuncLit)

/-- Modelled from the spec: a `parser.FuncLit` — an inline block carrying
a return type. -/
inductive FuncLit where
  | mk (ty : PTy) (body : List Stmt)

/-- Modelled from the spec: a `parser.Stmt` — a call statement or a
comment group. -/
inductive Stmt where
  | callStmt (c : CallStmt)
  | commentStmt
end

/-- Callee name of a call (`call.Func`, nil possible). -/
def CallStmt.funcName : CallStmt → Option String
  | .mk f _ _ _ => f

/-- Argument list of a call (`call.Args`). -/
def CallStmt.argList : CallStmt → List Expr
  | .mk _ a _ _ => a

/-- With clause of a call (`call.WithOpt`). -/
def CallStmt.withClause : CallStmt → Option WithClause
  | .mk _ _ w _ => w

/-- Alias ident of a call (`call.Alias.Ident`). -/
def CallStmt.aliasIdent : CallStmt → Option Ident
  | .mk _ _ _ al => al

/-- Modelled from the spec: `parser.BlockStmt.NonEmptyStmts()` — the
statements that carry a call. -/
def nonEmptyStmts (body : List Stmt) : List CallStmt :=
  body.filterMap (fun s =>
    match s with
    | .callStmt c => some c
    | .commentStmt => Option.none)

/-- Modelled from the spec: `parser.BlockStmt.NumStmts()` — the number of
call statements of the block. -/
def numStmts (body : List Stmt) : Nat :=
  (nonEmptyStmts body).length

/-- Modelled from the spec: a `parser.FuncDecl` — name, return type,
parameters and body (the doc group is irrelevant to the checker). -/
structure FuncDecl where
  name : Ident
  ty : PTy
  params : List PField
  body : List Stmt

/-- Modelled from the spec: the node bound by a scope `Object` — a
function declaration (`DeclKind`), an alias declaration (`DeclKind`,
linking its host function and call), or a field (`FieldKind`). -/
inductive ScopeObj where
  | declObj (fd : FuncDecl)
  | aliasObj (host : FuncDecl) (call : CallStmt)
  | fieldObj (f : PField)

/-- Modelled from the spec: a scope binding (`parser.Object`): the bound
ident and the node. -/
structure ScopeEntry where
  ident : Ident
  obj : ScopeObj

/-- Modelled from the spec: `Scope.Lookup` walking the parent chain — a
scope is flattened into a list with inner bindings first, and lookup
returns the first binding of the name. -/
def scopeLookup (s : List ScopeEntry) (name : String) : Option ScopeEntry :=
  s.find? (fun e => e.ident.text == name)

/-- Modelled from the spec: `Scope.Insert` — a map write: an existing
binding of the same name is replaced, otherwise the binding is added. -/
def scopeInsert (s : List ScopeEntry) (e : ScopeEntry) : List ScopeEntry :=
  if s.any (fun x => x.ident.text == e.ident.text) then
    s.map (fun x => if x.ident.text == e.ident.text then e else x)
  else
    s ++ [e]

/- ------------------------------------------------------------------ -/
/- Semantic checker (report/semantic.go)                              -/
/- ------------------------------------------------------------------ -/

/-- Error values of the `report` package that the semantic checker can
return.  `goPanic` stands for a Go runtime panic (out-of-range slice
index), `outOfFuel` for exhaustion of the recursion budget of the model
(the Go recursion always terminates on finite trees, so every real run is
reproduced at a large enough budget). -/
inductive SemErr where
  | duplicateDecls (idents : List Ident)
  | duplicateFields (fields : List PField)
  | noSource (block : List Stmt)
  | firstSource (call : CallStmt)
  | onlyFirstSource (call : CallStmt)
  | invalidFunc (call : CallStmt)
  | numArgs (expected : Nat) (call : CallStmt)
  | identNotDefined (name : String)
  | funcArg (name : String)
  | wrongArgType (expected actual : ObjType)
  | semantic (errs : List SemErr)
  | goPanic
  | outOfFuel

/-- Translation of `checkIdentArg(scope, typ, ident)`: an unbound name is
an ident-not-defined error; a declaration (function or alias) must take
no parameters (its return type is not inspected); a field must have a
type equal to the expected one. -/
def checkIdentArg (scope : List ScopeEntry) (typ : ObjType) (name : String) :
    Except SemErr Unit :=
  match scopeLookup scope name with
  | Option.none => Except.error (SemErr.identNotDefined name)
  | some entry =>
    match entry.obj with
    | .declObj fd =>
      if fd.params.length > 0 then Except.error (SemErr.funcArg name)
      else Except.ok ()
    | .aliasObj host _ =>
      if host.params.length > 0 then Except.error (SemErr.funcArg name)
      else Except.ok ()
    | .fieldObj f =>
      if !(f.ty.equals typ) then
        Except.error (SemErr.wrongArgType typ f.ty.ty)
      else Except.ok ()

/-- Translation of `checkBasicLitArg(typ, lit)`. -/
def checkBasicLitArg (typ : ObjType) (lit : BasicLit) : Except SemErr Unit :=
  match typ with
  | .str =>
    match lit with
    | .strLit _ => Except.ok ()
    | _ => Except.error (SemErr.wrongArgType typ (basicLitObjType lit))
  | .int =>
    match lit with
    | .decimalLit _ => Except.ok ()
    | .numericLit _ _ => Except.ok ()
    | _ => Except.error (SemErr.wrongArgType typ (basicLitObjType lit))
  | .bool =>
    match lit with
    | .boolLit _ => Except.ok ()
    | _ => Except.error (SemErr.wrongArgType typ (basicLitObjType lit))
  | _ => Except.error (SemErr.wrongArgType typ (basicLitObjType lit))

/-- Translation of `handleVariadicParams(fields, args)`: when the final
field is variadic it is removed and one synthetic non-variadic field of
its primitive type is appended per remaining argument.  The Go expression
`args[len(params):]` panics when there are fewer arguments than
non-variadic parameters; that case is `Option.none`. -/
def handleVariadicParams (fields : List PField) (args : List Expr) :
    Option (List PField) :=
  match fields.getLast? with
  | some last =>
    if last.variadic then
      let ps := fields.dropLast
      if ps.length > args.length then Option.none
      else some (ps ++ (List.range (args.length - ps.length)).map
        (fun i => newField (primaryType last.ty.objType)
          (last.name ++ "[" ++ toString i ++ "]") false))
    else some fields
  | Option.none => some fields

/-- Work items of the checker: a block check (`checkBlockStmt`), the
statement loop of a non-option block, the statement loop of an option
block (`checkOptionBlockStmt`), a call check (`checkCallStmt`), the
argument loop of a call, and a function-literal argument check
(`checkFuncLitArg`). -/
inductive CheckTask where
  | blockTask (scope : List ScopeEntry) (typ : PTy) (body : List Stmt) (op : String)
  | stmtsTask (scope : List ScopeEntry) (typ : PTy) (op : String)
      (found : Bool) (i : Nat) (calls : List CallStmt)
  | optTask (scope : List ScopeEntry) (op : String) (i : Nat) (stmts : List Stmt)
  | callTask (scope : List ScopeEntry) (typ : PTy) (i : Nat) (c : CallStmt) (op : String)
  | argsTask (scope : List ScopeEntry) (callee : String) (pairs : List (PField × Expr))
  | funcLitTask (scope : List ScopeEntry) (expected : ObjType) (lit : FuncLit) (op : String)

/-- The checker of `report/semantic.go`, written as one function over work
items with a recursion budget (each step consumes one unit; the budget
only bounds the recursion depth of the model and is no part of the
translated logic).  Loop tasks return their final `(foundSource, i)`
state on success; other tasks return `(false, 0)`. -/
def runCheck : Nat → CheckTask → Except SemErr (Bool × Nat)
  | 0, _ => Except.error SemErr.outOfFuel
  | fuel + 1, .blockTask scope typ body op =>
    if typ.equals ObjType.option then
      runCheck fuel (.optTask scope op 0 body)
    else if numStmts body == 0 then
      Except.error (SemErr.noSource body)
    else
      runCheck fuel (.stmtsTask scope typ op false 0 (nonEmptyStmts body))
  | fuel + 1, .stmtsTask scope typ op found i calls =>
    match calls with
    | [] => Except.ok (found, i)
    | c :: rest =>
      match c.funcName with
      | Option.none => runCheck fuel (.stmtsTask scope typ op found i rest)
      | some name =>
        if Debugs.contains name then
          runCheck fuel (.stmtsTask scope typ op found i rest)
        else if !found then
          if !((BuiltinSources typ.ty).contains name) then
            match scopeLookup scope name with
            | Option.none => Except.error (SemErr.firstSource c)
            | some entry =>
              let callType : PTy :=
                match entry.obj with
                | .declObj fd => fd.ty
                | .aliasObj host _ => host.ty
                | .fieldObj f => f.ty
              if !(callType.equals typ.ty) then
                Except.error (SemErr.firstSource c)
              else
                match runCheck fuel (.callTask scope typ i c op) with
                | Except.error e => Except.error e
                | Except.ok _ => runCheck fuel (.stmtsTask scope typ op true (i + 1) rest)
          else
            match runCheck fuel (.callTask scope typ i c op) with
            | Except.error e => Except.error e
            | Except.ok _ => runCheck fuel (.stmtsTask scope typ op true (i + 1) rest)
        else
          if (BuiltinSources typ.ty).contains name then
            Except.error (SemErr.onlyFirstSource c)
          else
            match runCheck fuel (.callTask scope typ i c op) with
            | Except.error e => Except.error e
            | Except.ok _ => runCheck fuel (.stmtsTask scope typ op found (i + 1) rest)
  | fuel + 1, .optTask scope op i stmts =>
    match stmts with
    | [] => Except.ok (false, i)
    | s :: rest =>
      match s with
      | .commentStmt => runCheck fuel (.optTask scope op i rest)
      | .callStmt c =>
        match c.funcName with
        | Option.none => runCheck fuel (.optTask scope op i rest)
        | some _ =>
          match runCheck fuel (.callTask scope ⟨ObjType.optionOf op⟩ i c op) with
          | Except.error e => Except.error e
          | Except.ok _ => runCheck fuel (.optTask scope op (i + 1) rest)
  | fuel + 1, .callTask scope typ i c op =>
    match c.funcName with
    | Option.none => Except.error SemErr.goPanic
    | some name =>
      let funcs : List String :=
        match typ.ty with
        | .filesystem =>
          if i == 0 then flatMapGo [BuiltinSources typ.ty, Debugs]
          else flatMapGo [Ops, Debugs]
        | .str =>
          if i == 0 then flatMapGo [BuiltinSources typ.ty, Debugs]
          else flatMapGo [Ops, Debugs]
        | .option => lookupKeywords op
        | _ => []
      let builtinParams : Option (List PField) :=
        match typ.ty with
        | .filesystem => handleVariadicParams (builtinsLookup typ.ty name) c.argList
        | .str => handleVariadicParams (builtinsLookup typ.ty name) c.argList
        | .option =>
          handleVariadicParams (builtinsLookup (ObjType.optionOf op) name) c.argList
        | _ => some []
      let resolved : Except SemErr (Option (List PField)) :=
        if !(funcs.contains name) then
          match scopeLookup scope name with
          | Option.none => Except.error (SemErr.invalidFunc c)
          | some entry =>
            match entry.obj with
            | .declObj fd => Except.ok (handleVariadicParams fd.params c.argList)
            | .aliasObj host _ => Except.ok (handleVariadicParams host.params c.argList)
            | .fieldObj _ => Except.ok (handleVariadicParams [] c.argList)
        else Except.ok builtinParams
      match resolved with
      | Except.error e => Except.error e
      | Except.ok Option.none => Except.error SemErr.goPanic
      | Except.ok (some params) =>
        if params.length != c.argList.length then
          Except.error (SemErr.numArgs params.length c)
        else
          match runCheck fuel (.argsTask scope name (params.zip c.argList)) with
          | Except.error e => Except.error e
          | Except.ok _ =>
            match c.withClause with
            | Option.none => Except.ok (false, 0)
            | some (.identClause wname) =>
              match checkIdentArg scope ObjType.option wname with
              | Except.error e => Except.error e
              | Except.ok _ => Except.ok (false, 0)
            | some (.funcLitClause lit) =>
              runCheck fuel (.funcLitTask scope ObjType.option lit name)
  | fuel + 1, .argsTask scope callee pairs =>
    match pairs with
    | [] => Except.ok (false, 0)
    | (param, arg) :: rest =>
      let argRes : Except SemErr (Bool × Nat) :=
        match arg with
        | .identExpr name2 =>
          match checkIdentArg scope param.ty.ty name2 with
          | Except.error e => Except.error e
          | Except.ok _ => Except.ok (false, 0)
        | .basicLitExpr lit =>
          match checkBasicLitArg param.ty.ty lit with
          | Except.error e => Except.error e
          | Except.ok _ => Except.ok (false, 0)
        | .funcLitExpr lit => runCheck fuel (.funcLitTask scope param.ty.ty lit callee)
      match argRes with
      | Except.error e => Except.error e
      | Except.ok _ => runCheck fuel (.argsTask scope callee rest)
  | fuel + 1, .funcLitTask scope expected lit op =>
    match lit with
    | .mk lty body =>
      if !(lty.equals expected) then
        Except.error (SemErr.wrongArgType expected lty.objType)
      else
        runCheck fuel (.blockTask scope lty body op)

/-- Translation of `checkBlockStmt(scope, typ, block, op)`. -/
def checkBlockStmt (fuel : Nat) (scope : List ScopeEntry) (typ : PTy)
    (body : List Stmt) (op : String) : Except SemErr (Bool × Nat) :=
  runCheck fuel (.blockTask scope typ body op)

/-- Translation of the duplicate-field scan of `checkFieldList`: walk the
fields with a seen-set; on the first repeated name record the original
and the repeat, on later repeats record only the repeat. -/
def collectDupFields : List PField → List (String × PField) → List PField → List PField
  | [], _, dups => dups
  | f :: rest, seen, dups =>
    match seen.find? (fun p => p.1 == f.name) with
    | some p =>
      let dups2 := if dups.isEmpty then [p.2, f] else dups ++ [f]
      collectDupFields rest seen dups2
    | Option.none => collectDupFields rest (seen ++ [(f.name, f)]) dups

/-- Translation of `checkFieldList(fields)`. -/
def checkFieldList (fields : List PField) : Except SemErr Unit :=
  let dups := collectDupFields fields [] []
  if dups.isEmpty then Except.ok () else Except.error (SemErr.duplicateFields dups)

/-- Nested statement blocks of a call: the bodies of its function-literal
arguments and of its function-literal `with` clause — the sub-nodes that
`parser.Inspect` descends into when it searches a function for `as`
clauses. -/
def callSubStmts (c : CallStmt) : List Stmt :=
  (c.argList.filterMap (fun a =>
    match a with
    | .funcLitExpr (.mk _ b) => some b
    | _ => Option.none)).flatten ++
  (match c.withClause with
   | some (.funcLitClause (.mk _ b)) => b
   | _ => [])

/-- Modelled from the spec: the `as` aliases found by the `parser.Inspect`
walk over a function body in `SemanticCheck` — every call statement of the
body, including calls inside function-literal arguments and `with`
clauses, contributes its alias ident (paired with the call).  The budget
only bounds the walk depth of the model. -/
def aliasScan : Nat → List Stmt → List (Ident × CallStmt)
  | 0, _ => []
  | _ + 1, [] => []
  | fuel + 1, s :: rest =>
    match s with
    | .commentStmt => aliasScan fuel rest
    | .callStmt c =>
      let own : List (Ident × CallStmt) :=
        match c.aliasIdent with
        | some id => [(id, c)]
        | Option.none => []
      own ++ aliasScan fuel (callSubStmts c ++ rest)

/-- State of the declaration walk of `SemanticCheck`: the module scope
being built and the duplicate idents collected so far. -/
structure DeclState where
  scope : List ScopeEntry
  dups : List Ident

/-- Translation of phase A of `SemanticCheck`: walk the top-level function
declarations; a name already bound is recorded as a duplicate (the bound
ident first when it is the first duplicate) and the declaration is skipped;
otherwise the declaration is inserted and the aliases of its body are
inserted as alias declarations linking back to it. -/
def phaseA (fuel : Nat) : List FuncDecl → DeclState → DeclState
  | [], st => st
  | fd :: rest, st =>
    match scopeLookup st.scope fd.name.text with
    | some entry =>
      let dups2 := if st.dups.isEmpty then [entry.ident, fd.name] else st.dups ++ [fd.name]
      phaseA fuel rest { st with dups := dups2 }
    | Option.none =>
      let scope1 := scopeInsert st.scope { ident := fd.name, obj := ScopeObj.declObj fd }
      let scope2 := (aliasScan fuel fd.body).foldl
        (fun sc p => scopeInsert sc { ident := p.1, obj := ScopeObj.aliasObj fd p.2 }) scope1
      phaseA fuel rest { scope := scope2, dups := st.dups }

/-- The scope of a function: its parameters as `Field` objects, looked up
before the module scope (the child scope of the Go implementation). -/
def funcScope (moduleScope : List ScopeEntry) (fd : FuncDecl) : List ScopeEntry :=
  (fd.params.foldl
    (fun sc p => scopeInsert sc { ident := { text := p.name, pos := 0 },
                                  obj := ScopeObj.fieldObj p }) []) ++ moduleScope

/-- Translation of phase B of `SemanticCheck`: for every function, check
the parameter list for duplicates (skipping the body on failure), then
check the body with `checkBlockStmt`, with `op` set to the type's subtype
for option-typed functions; the errors of all functions are collected. -/
def phaseB (fuel : Nat) (moduleScope : List ScopeEntry) : List FuncDecl → List SemErr
  | [] => []
  | fd :: rest =>
    let errsHere : List SemErr :=
      match checkFieldList fd.params with
      | Except.error e => [e]
      | Except.ok _ =>
        let op := if fd.ty.ty == ObjType.option then fd.ty.subType else ""
        match checkBlockStmt fuel (funcScope moduleScope fd) fd.ty fd.body op with
        | Except.error e => [e]
        | Except.ok _ => []
    errsHere ++ phaseB fuel moduleScope rest

/-- Translation of `SemanticCheck(file)`: phase A builds the module scope
and collects duplicate declarations; a non-empty duplicate list
short-circuits into `ErrDuplicateDecls` without running any per-function
check; otherwise phase B collects the per-function errors into
`ErrSemantic`. -/
def semanticCheck (fuel : Nat) (mod : List FuncDecl) : Except SemErr Unit :=
  let st := phaseA fuel mod { scope := [], dups := [] }
  if !st.dups.isEmpty then
    Except.error (SemErr.duplicateDecls st.dups)
  else
    let errs := phaseB fuel st.scope mod
    if !errs.isEmpty then Except.error (SemErr.semantic errs)
    else Except.ok ()

/- ------------------------------------------------------------------ -/
/- Theorems for claims C4 and C10                                     -/
/- ------------------------------------------------------------------ -/

/-- C4: for a parameter list whose final field is variadic and an argument
list with at least as many arguments as non-variadic parameters,
`handleVariadicParams` yields an expanded list whose length equals the
number of arguments, whose leading entries are the non-variadic parameters
unchanged, and whose synthetic trailing entries all carry the variadic
parameter's type and are not variadic. -/
theorem handleVariadicParams_expands (fields : List PField) (last : PField)
    (args : List Expr) (hlast : fields.getLast? = some last)
    (hvar : last.variadic = true)
    (hlen : fields.length - 1 ≤ args.length) :
    ∃ params, handleVariadicParams fields args = some params ∧
      params.length = args.length ∧
      params.take (fields.length - 1) = fields.dropLast ∧
      ∀ p ∈ params.drop (fields.length - 1),
        p.ty = { objType := primaryType last.ty.objType } ∧ p.variadic = false := by
  have hdl : fields.dropLast.length = fields.length - 1 := by
    simp [List.length_dropLast]
  have hlen2 : fields.dropLast.length ≤ args.length := by omega
  refine ⟨fields.dropLast ++ (List.range (args.length - fields.dropLast.length)).map
    (fun i => newField (primaryType last.ty.objType)
      (last.name ++ "[" ++ toString i ++ "]") false), ?_, ?_, ?_, ?_⟩
  · unfold handleVariadicParams
    rw [hlast]
    simp only [hvar, if_true]
    rw [if_neg (by omega)]
  · simp only [List.length_append, List.length_map, List.length_range]
    omega
  · rw [← hdl, List.take_left]
  · intro p hp
    rw [← hdl, List.drop_left] at hp
    simp only [List.mem_map, List.mem_range] at hp
    obtain ⟨i, _, rfl⟩ := hp
    exact ⟨rfl, rfl⟩

/-- Witness for `handleVariadicParams_expands`: `f(variadic string xs)`
called with three string arguments expands to a parameter list of length
3 whose entries are all typed string. -/
theorem handleVariadicParams_expands_witness :
    ∃ params, handleVariadicParams [newField ObjType.str "xs" true]
        [Expr.basicLitExpr (BasicLit.strLit "a"), Expr.basicLitExpr (BasicLit.strLit "b"),
         Expr.basicLitExpr (BasicLit.strLit "c")] = some params ∧
      params.length = [Expr.basicLitExpr (BasicLit.strLit "a"),
        Expr.basicLitExpr (BasicLit.strLit "b"),
        Expr.basicLitExpr (BasicLit.strLit "c")].length ∧
      params.take ([newField ObjType.str "xs" true].length - 1) =
        [newField ObjType.str "xs" true].dropLast ∧
      ∀ p ∈ params.drop ([newField ObjType.str "xs" true].length - 1),
        p.ty = { objType := primaryType (newField ObjType.str "xs" true).ty.objType } ∧
        p.variadic = false :=
  handleVariadicParams_expands [newField ObjType.str "xs" true]
    (newField ObjType.str "xs" true) _ (by rfl) (by rfl) (by decide)

/-- C10: the case analysis of `checkIdentArg` for an expected type: an
unbound name yields ident-not-defined; a function or alias declaration
succeeds exactly when it has zero parameters (a func-arg error otherwise)
and its return type is never compared with the expected type (the result
does not depend on the expected type at all); a field succeeds exactly
when its declared type equals the expected type (a wrong-argument-type
error otherwise). -/
theorem checkIdentArg_cases (scope : List ScopeEntry) (typ : ObjType) (name : String) :
    (scopeLookup scope name = Option.none →
      checkIdentArg scope typ name = Except.error (SemErr.identNotDefined name)) ∧
    (∀ entry fd, scopeLookup scope name = some entry →
      entry.obj = ScopeObj.declObj fd →
      ((fd.params.length = 0 → checkIdentArg scope typ name = Except.ok ()) ∧
       (fd.params.length ≠ 0 →
         checkIdentArg scope typ name = Except.error (SemErr.funcArg name)) ∧
       (∀ typ2, checkIdentArg scope typ name = checkIdentArg scope typ2 name))) ∧
    (∀ entry host cal, scopeLookup scope name = some entry →
      entry.obj = ScopeObj.aliasObj host cal →
      ((host.params.length = 0 → checkIdentArg scope typ name = Except.ok ()) ∧
       (host.params.length ≠ 0 →
         checkIdentArg scope typ name = Except.error (SemErr.funcArg name)) ∧
       (∀ typ2, checkIdentArg scope typ name = checkIdentArg scope typ2 name))) ∧
    (∀ entry f, scopeLookup scope name = some entry →
      entry.obj = ScopeObj.fieldObj f →
      ((f.ty.equals typ = true → checkIdentArg scope typ name = Except.ok ()) ∧
       (f.ty.equals typ = false →
         checkIdentArg scope typ name =
           Except.error (SemErr.wrongArgType typ f.ty.ty)))) := by
  refine ⟨?_, ?_, ?_, ?_⟩
  · intro hnone
    simp only [checkIdentArg, hnone]
  · intro entry fd hfind hobj
    refine ⟨?_, ?_, ?_⟩
    · intro hzero
      simp only [checkIdentArg, hfind, hobj]
      simp [hzero]
    · intro hnz
      simp only [checkIdentArg, hfind, hobj]
      rw [if_pos (by omega)]
    · intro typ2
      simp only [checkIdentArg, hfind, hobj]
  · intro entry host cal hfind hobj
    refine ⟨?_, ?_, ?_⟩
    · intro hzero
      simp only [checkIdentArg, hfind, hobj]
      simp [hzero]
    · intro hnz
      simp only [checkIdentArg, hfind, hobj]
      rw [if_pos (by omega)]
    · intro typ2
      simp only [checkIdentArg, hfind, hobj]
  · intro entry f hfind hobj
    refine ⟨?_, ?_⟩
    · intro heq
      simp only [checkIdentArg, hfind, hobj]
      simp [heq]
    · intro hne
      simp only [checkIdentArg, hfind, hobj]
      simp [hne]

/-- Concrete nullary declaration used by the `checkIdentArg` witness. -/
def fDeclDemo : FuncDecl :=
  { name := { text := "f", pos := 0 }, ty := { objType := ObjType.filesystem },
    params := [], body := [] }

/-- Concrete unary declaration used by the `checkIdentArg` witness. -/
def gDeclDemo : FuncDecl :=
  { name := { text := "g", pos := 0 }, ty := { objType := ObjType.filesystem },
    params := [newField ObjType.str "x" false], body := [] }

/-- Concrete scope used by the `checkIdentArg` witness. -/
def demoScope : List ScopeEntry :=
  [{ ident := { text := "f", pos := 0 }, obj := ScopeObj.declObj fDeclDemo },
   { ident := { text := "g", pos := 0 }, obj := ScopeObj.declObj gDeclDemo },
   { ident := { text := "p", pos := 0 },
     obj := ScopeObj.fieldObj (newField ObjType.int "p" false) }]

/-- Witness for `checkIdentArg_cases` on a concrete scope holding a
nullary declaration, a unary declaration and an int field. -/
theorem checkIdentArg_cases_witness :
    (checkIdentArg demoScope ObjType.str "missing" =
      Except.error (SemErr.identNotDefined "missing")) ∧
    (checkIdentArg demoScope ObjType.str "f" = Except.ok ()) ∧
    (checkIdentArg demoScope ObjType.str "g" = Except.error (SemErr.funcArg "g")) ∧
    (checkIdentArg demoScope ObjType.str "p" =
      Except.error (SemErr.wrongArgType ObjType.str ObjType.int)) := by
  refine ⟨(checkIdentArg_cases demoScope ObjType.str "missing").1 rfl, ?_, ?_, ?_⟩
  · exact ((checkIdentArg_cases demoScope ObjType.str "f").2.1
      { ident := { text := "f", pos := 0 }, obj := ScopeObj.declObj fDeclDemo }
      fDeclDemo rfl rfl).1 rfl
  · exact ((checkIdentArg_cases demoScope ObjType.str "g").2.1
      { ident := { text := "g", pos := 0 }, obj := ScopeObj.declObj gDeclDemo }
      gDeclDemo rfl rfl).2.1 (by decide)
  · exact ((checkIdentArg_cases demoScope ObjType.str "p").2.2.2
      { ident := { text := "p", pos := 0 },
        obj := ScopeObj.fieldObj (newField ObjType.int "p" false) }
      (newField ObjType.int "p" false) rfl rfl).2 (by decide)

/- ------------------------------------------------------------------ -/
/- Theorems for claim C1                                              -/
/- ------------------------------------------------------------------ -/

/-- Calls that the source/ordering loop of `checkBlockStmt` skips: calls
without a callee name and debug calls (`breakpoint`). -/
def skipsSourceCheck (c : CallStmt) : Bool :=
  match c.funcName with
  | Option.none => true
  | some n => Debugs.contains n

/-- Resolution part of the first-source rule: the name resolves in the
scope chain to a declaration, alias or field whose type equals the block's
type. -/
def resolvesWithBlockType (scope : List ScopeEntry) (typ : PTy) (name : String) : Bool :=
  match scopeLookup scope name with
  | Option.none => false
  | some entry =>
    (match entry.obj with
     | .declObj fd => fd.ty
     | .aliasObj host _ => host.ty
     | .fieldObj f => f.ty).equals typ.ty

/-- Skipped calls pass through the statement loop, consuming one unit of
budget each and leaving the loop state unchanged. -/
theorem stmtsTask_skips (scope : List ScopeEntry) (typ : PTy) (op : String)
    (found : Bool) (i : Nat) (rest : List CallStmt) :
    ∀ (pre : List CallStmt) (fuel : Nat),
      (∀ c ∈ pre, skipsSourceCheck c = true) → pre.length ≤ fuel →
      runCheck fuel (.stmtsTask scope typ op found i (pre ++ rest)) =
        runCheck (fuel - pre.length) (.stmtsTask scope typ op found i rest) := by
  intro pre
  induction pre with
  | nil => intro fuel _ _; simp
  | cons c pre2 ih =>
    intro fuel hsk hlen
    obtain ⟨f, rfl⟩ : ∃ f, fuel = f + 1 := ⟨fuel - 1, by simp at hlen; omega⟩
    have hc := hsk c (by simp)
    have hstep : runCheck (f + 1) (.stmtsTask scope typ op found i (c :: (pre2 ++ rest))) =
        runCheck f (.stmtsTask scope typ op found i (pre2 ++ rest)) := by
      cases hfn : c.funcName with
      | none => simp [runCheck, hfn]
      | some n =>
        have hdbg : Debugs.contains n = true := by
          simpa [skipsSourceCheck, hfn] using hc
        have hmem : n ∈ Debugs := by simpa using hdbg
        simp [runCheck, hfn, hmem]
    rw [List.cons_append, hstep,
      ih f (fun x hx => hsk x (by simp [hx])) (by simp at hlen; omega)]
    congr 1
    simp only [List.length_cons]
    omega

/-- Helper for the only-first-source rule: if the statement loop accepts
a prefix and ends it with the found-source flag set, then appending a
non-debug call whose name is a builtin source for the block type makes
the loop report exactly an only-first-source error on that call. -/
theorem stmtsTask_trailing_source (scope : List ScopeEntry) (typ : PTy) (op : String)
    (c : CallStmt) (name : String) (l2 : List CallStmt)
    (hc : c.funcName = some name)
    (hdbg : Debugs.contains name = false)
    (hsrc : (BuiltinSources typ.ty).contains name = true) :
    ∀ (l1 : List CallStmt) (fuel : Nat) (found : Bool) (i i1 : Nat),
      runCheck fuel (.stmtsTask scope typ op found i l1) = Except.ok (true, i1) →
      runCheck fuel (.stmtsTask scope typ op found i (l1 ++ c :: l2)) =
        Except.error (SemErr.onlyFirstSource c) := by
  have hmemd : name ∉ Debugs := by simpa using hdbg
  have hmems : name ∈ BuiltinSources typ.ty := by simpa using hsrc
  intro l1
  induction l1 with
  | nil =>
    intro fuel found i i1 h
    cases fuel with
    | zero => simp [runCheck] at h
    | succ f =>
      simp only [runCheck] at h
      obtain ⟨hfound, hi⟩ : found = true ∧ i = i1 := by
        have h2 := h
        simp at h2
        exact h2
      subst hfound
      simp [runCheck, hc, hmemd, hmems]
  | cons d l1x ih =>
    intro fuel found i i1 h
    cases fuel with
    | zero => simp [runCheck] at h
    | succ f =>
      rw [List.cons_append]
      cases hd : d.funcName with
      | none =>
        simp only [runCheck, hd] at h ⊢
        exact ih f found i i1 h
      | some dn =>
        simp only [runCheck, hd] at h ⊢
        cases hdd : Debugs.contains dn with
        | true =>
          rw [if_pos hdd] at h
          rw [if_pos rfl]
          exact ih f found i i1 h
        | false =>
          have hddP : ¬(Debugs.contains dn = true) := by rw [hdd]; simp
          rw [if_neg hddP] at h
          rw [if_neg (by simp)]
          cases found with
          | true =>
            rw [if_neg (by simp)] at h ⊢
            cases hdn : (BuiltinSources typ.ty).contains dn with
            | true =>
              rw [if_pos hdn] at h
              exact Except.noConfusion h
            | false =>
              have hdnP : ¬((BuiltinSources typ.ty).contains dn = true) := by
                rw [hdn]; simp
              rw [if_neg hdnP] at h
              rw [if_neg (by simp)]
              cases hcall : runCheck f (CheckTask.callTask scope typ i d op) with
              | error e =>
                rw [hcall] at h
                exact Except.noConfusion h
              | ok v =>
                rw [hcall] at h
                simp only [] at h ⊢
                exact ih f true (i + 1) i1 h
          | false =>
            rw [if_pos (by simp)] at h ⊢
            cases hdn : (BuiltinSources typ.ty).contains dn with
            | true =>
              have hdnP : ¬((!(BuiltinSources typ.ty).contains dn) = true) := by
                rw [hdn]; simp
              rw [if_neg hdnP] at h
              rw [if_neg (by simp)]
              cases hcall : runCheck f (CheckTask.callTask scope typ i d op) with
              | error e =>
                rw [hcall] at h
                exact Except.noConfusion h
              | ok v =>
                rw [hcall] at h
                simp only [] at h ⊢
                exact ih f true (i + 1) i1 h
            | false =>
              have hdnP : (!(BuiltinSources typ.ty).contains dn) = true := by
                rw [hdn]; rfl
              rw [if_pos hdnP] at h
              rw [if_pos (by simp)]
              cases hl : scopeLookup scope dn with
              | none =>
                rw [hl] at h
                exact Except.noConfusion h
              | some entry =>
                rw [hl] at h
                simp only [] at h ⊢
                cases hct : (match entry.obj with
                  | .declObj fd => fd.ty
                  | .aliasObj host _ => host.ty
                  | .fieldObj fx => fx.ty : PTy).equals typ.ty with
                | false =>
                  rw [if_pos (by rw [hct]; rfl)] at h
                  exact Except.noConfusion h
                | true =>
                  rw [if_neg (by rw [hct]; simp)] at h
                  rw [if_neg (by simp)]
                  cases hcall : runCheck f (CheckTask.callTask scope typ i d op) with
                  | error e =>
                    rw [hcall] at h
                    exact Except.noConfusion h
                  | ok v =>
                    rw [hcall] at h
                    simp only [] at h ⊢
                    exact ih f true (i + 1) i1 h

/-- The no-source rule: a non-option block with zero call statements is
reported as a `NoSource` error. -/
theorem checkBlockStmt_noSource (fuel : Nat) (scope : List ScopeEntry) (typ : PTy)
    (body : List Stmt) (op : String)
    (hopt : typ.equals ObjType.option = false)
    (h0 : numStmts body = 0) (hfuel : 1 ≤ fuel) :
    checkBlockStmt fuel scope typ body op = Except.error (SemErr.noSource body) := by
  obtain ⟨f, rfl⟩ : ∃ f, fuel = f + 1 := ⟨fuel - 1, by omega⟩
  simp only [checkBlockStmt, runCheck]
  rw [if_neg (by rw [hopt]; simp), if_pos (by rw [h0]; rfl)]

/-- The first-source rule: in a non-option block whose first non-debug
call neither is a builtin source for the block type nor resolves to a
declaration, alias or field of the block's type, the checker reports a
`FirstSource` error on that call. -/
theorem checkBlockStmt_firstSource (fuel : Nat) (scope : List ScopeEntry) (typ : PTy)
    (body : List Stmt) (op : String) (pre : List CallStmt) (c : CallStmt)
    (rest : List CallStmt) (name : String)
    (hopt : typ.equals ObjType.option = false)
    (hsplit : nonEmptyStmts body = pre ++ c :: rest)
    (hpre : ∀ x ∈ pre, skipsSourceCheck x = true)
    (hcname : c.funcName = some name)
    (hdbg : Debugs.contains name = false)
    (hsrc : (BuiltinSources typ.ty).contains name = false)
    (hres : resolvesWithBlockType scope typ name = false)
    (hfuel : pre.length + 2 ≤ fuel) :
    checkBlockStmt fuel scope typ body op = Except.error (SemErr.firstSource c) := by
  obtain ⟨f, rfl⟩ : ∃ f, fuel = f + 1 := ⟨fuel - 1, by omega⟩
  simp only [checkBlockStmt, runCheck]
  rw [if_neg (by rw [hopt]; simp),
    if_neg (by simp [numStmts, hsplit])]
  rw [hsplit, stmtsTask_skips scope typ op false 0 (c :: rest) pre f hpre (by omega)]
  obtain ⟨g, hg⟩ : ∃ g, f - pre.length = g + 1 := ⟨f - pre.length - 1, by omega⟩
  rw [hg]
  simp only [runCheck, hcname]
  rw [if_neg (by rw [hdbg]; simp), if_pos (by simp), if_pos (by rw [hsrc]; rfl)]
  cases hl : scopeLookup scope name with
  | none => rfl
  | some entry =>
    simp only [resolvesWithBlockType, hl] at hres
    simp only []
    rw [if_pos (by rw [hres]; rfl)]

/-- The only-first-source rule: in a non-option block, a later non-debug
call that is a builtin source for the block type — reached after the loop
accepted the earlier calls with a source found — is reported as an
`OnlyFirstSource` error. -/
theorem checkBlockStmt_onlyFirstSource (fuel : Nat) (scope : List ScopeEntry)
    (typ : PTy) (body : List Stmt) (op : String) (l1 : List CallStmt) (c : CallStmt)
    (l2 : List CallStmt) (i1 : Nat) (name : String)
    (hopt : typ.equals ObjType.option = false)
    (hsplit : nonEmptyStmts body = l1 ++ c :: l2)
    (hpfx : runCheck (fuel - 1) (.stmtsTask scope typ op false 0 l1) =
      Except.ok (true, i1))
    (hcname : c.funcName = some name)
    (hdbg : Debugs.contains name = false)
    (hsrc : (BuiltinSources typ.ty).contains name = true)
    (hfuel : 1 ≤ fuel) :
    checkBlockStmt fuel scope typ body op =
      Except.error (SemErr.onlyFirstSource c) := by
  obtain ⟨f, rfl⟩ : ∃ f, fuel = f + 1 := ⟨fuel - 1, by omega⟩
  simp only [checkBlockStmt, runCheck]
  rw [if_neg (by rw [hopt]; simp),
    if_neg (by simp [numStmts, hsplit])]
  rw [hsplit]
  exact stmtsTask_trailing_source scope typ op c name l2 hcname hdbg hsrc l1 f false 0 i1
    (by simpa using hpfx)

/-- The call `run "echo"` of the missing-source example. -/
def runEchoCall : CallStmt :=
  CallStmt.mk (some "run") [Expr.basicLitExpr (BasicLit.strLit "echo")]
    Option.none Option.none

/-- The module `fs bad() { run "echo"; }` of the missing-source example. -/
def badFunc : FuncDecl :=
  { name := { text := "bad", pos := 1 }, ty := { objType := ObjType.filesystem },
    params := [], body := [Stmt.callStmt runEchoCall] }

/-- The call `image "alpine"`. -/
def imageAlpineCall : CallStmt :=
  CallStmt.mk (some "image") [Expr.basicLitExpr (BasicLit.strLit "alpine")]
    Option.none Option.none

/-- The call `image "busybox"`. -/
def imageBusyboxCall : CallStmt :=
  CallStmt.mk (some "image") [Expr.basicLitExpr (BasicLit.strLit "busybox")]
    Option.none Option.none

/-- C1: the block/source rule of the semantic checker for blocks whose
declared type is not option: (1) a block with zero call statements is a
`NoSource` error; (2) the module `fs bad() { run "echo"; }` yields a
`FirstSource` diagnostic on the `run` call; (3) whenever the first
non-debug call is neither a builtin source for the block's type nor an
identifier resolving to a declaration, alias or field whose type equals
the block's type, the checker reports a `FirstSource` error on that call;
(4) a later non-debug call that is a builtin source for the block's type,
reached after the earlier calls passed with a source found, is reported as
an `OnlyFirstSource` error. -/
theorem checkBlockStmt_source_rules :
    (∀ (fuel : Nat) (scope : List ScopeEntry) (typ : PTy) (body : List Stmt)
        (op : String),
      typ.equals ObjType.option = false → numStmts body = 0 → 1 ≤ fuel →
      checkBlockStmt fuel scope typ body op = Except.error (SemErr.noSource body)) ∧
    (semanticCheck 10 [badFunc] =
        Except.error (SemErr.semantic [SemErr.firstSource runEchoCall]) ∧
      runEchoCall.funcName = some "run") ∧
    (∀ (fuel : Nat) (scope : List ScopeEntry) (typ : PTy) (body : List Stmt)
        (op : String) (pre : List CallStmt) (c : CallStmt) (rest : List CallStmt)
        (name : String),
      typ.equals ObjType.option = false →
      nonEmptyStmts body = pre ++ c :: rest →
      (∀ x ∈ pre, skipsSourceCheck x = true) →
      c.funcName = some name →
      Debugs.contains name = false →
      (BuiltinSources typ.ty).contains name = false →
      resolvesWithBlockType scope typ name = false →
      pre.length + 2 ≤ fuel →
      checkBlockStmt fuel scope typ body op = Except.error (SemErr.firstSource c)) ∧
    (∀ (fuel : Nat) (scope : List ScopeEntry) (typ : PTy) (body : List Stmt)
        (op : String) (l1 : List CallStmt) (c : CallStmt) (l2 : List CallStmt)
        (i1 : Nat) (name : String),
      typ.equals ObjType.option = false →
      nonEmptyStmts body = l1 ++ c :: l2 →
      runCheck (fuel - 1) (.stmtsTask scope typ op false 0 l1) = Except.ok (true, i1) →
      c.funcName = some name →
      Debugs.contains name = false →
      (BuiltinSources typ.ty).contains name = true →
      1 ≤ fuel →
      checkBlockStmt fuel scope typ body op =
        Except.error (SemErr.onlyFirstSource c)) :=
  ⟨fun fuel scope typ body op h1 h2 h3 =>
      checkBlockStmt_noSource fuel scope typ body op h1 h2 h3,
    ⟨rfl, rfl⟩,
    fun fuel scope typ body op pre c rest name h1 h2 h3 h4 h5 h6 h7 h8 =>
      checkBlockStmt_firstSource fuel scope typ body op pre c rest name
        h1 h2 h3 h4 h5 h6 h7 h8,
    fun fuel scope typ body op l1 c l2 i1 name h1 h2 h3 h4 h5 h6 h7 =>
      checkBlockStmt_onlyFirstSource fuel scope typ body op l1 c l2 i1 name
        h1 h2 h3 h4 h5 h6 h7⟩

/-- Witness for `checkBlockStmt_source_rules` on concrete blocks: the
empty fs block is a NoSource error, `{ run "echo"; }` is a FirstSource
error on the run call, and `{ image "alpine"; image "busybox"; }` is an
OnlyFirstSource error on the second image call. -/
theorem checkBlockStmt_source_rules_witness :
    checkBlockStmt 1 [] { objType := ObjType.filesystem } [] "" =
      Except.error (SemErr.noSource []) ∧
    checkBlockStmt 5 [] { objType := ObjType.filesystem }
        [Stmt.callStmt runEchoCall] "" =
      Except.error (SemErr.firstSource runEchoCall) ∧
    checkBlockStmt 10 [] { objType := ObjType.filesystem }
        [Stmt.callStmt imageAlpineCall, Stmt.callStmt imageBusyboxCall] "" =
      Except.error (SemErr.onlyFirstSource imageBusyboxCall) :=
  ⟨checkBlockStmt_source_rules.1 1 [] { objType := ObjType.filesystem } [] ""
      (by decide) rfl (by decide),
    checkBlockStmt_source_rules.2.2.1 5 [] { objType := ObjType.filesystem }
      [Stmt.callStmt runEchoCall] "" [] runEchoCall [] "run"
      (by decide) rfl (by simp) rfl (by decide) (by decide) (by decide) (by decide),
    checkBlockStmt_source_rules.2.2.2 10 [] { objType := ObjType.filesystem }
      [Stmt.callStmt imageAlpineCall, Stmt.callStmt imageBusyboxCall] ""
      [imageAlpineCall] imageBusyboxCall [] 1 "image"
      (by decide) rfl rfl rfl (by decide) (by decide) (by decide)⟩

/-- Lookup of the inserted name after a map-style overwrite finds the new
binding. -/
theorem find?_map_replace_self (s : List ScopeEntry) (e : ScopeEntry)
    (h : s.any (fun x => x.ident.text == e.ident.text) = true) :
    ((s.map (fun x => if x.ident.text == e.ident.text then e else x)).find?
      (fun y => y.ident.text == e.ident.text)) = some e := by
  induction s with
  | nil => simp at h
  | cons x s2 ih =>
    by_cases hx : (x.ident.text == e.ident.text) = true
    · simp only [List.map_cons, if_pos hx]
      exact @List.find?_cons_of_pos ScopeEntry
        (fun y => y.ident.text == e.ident.text) e _ (by simp)
    · simp only [List.map_cons, if_neg hx]
      rw [@List.find?_cons_of_neg ScopeEntry
        (fun y => y.ident.text == e.ident.text) x _ hx]
      apply ih
      simp only [List.any_cons, Bool.or_eq_true] at h
      rcases h with h1 | h2
      · exact absurd h1 hx
      · exact h2

/-- A map-style overwrite leaves the lookup of every other name
unchanged. -/
theorem find?_map_replace_other (s : List ScopeEntry) (e : ScopeEntry) (n : String)
    (hne : n ≠ e.ident.text) :
    ((s.map (fun x => if x.ident.text == e.ident.text then e else x)).find?
      (fun y => y.ident.text == n)) = s.find? (fun y => y.ident.text == n) := by
  induction s with
  | nil => rfl
  | cons x s2 ih =>
    by_cases hx : (x.ident.text == e.ident.text) = true
    · have hxe : x.ident.text = e.ident.text := by simpa using hx
      simp only [List.map_cons, if_pos hx]
      rw [@List.find?_cons_of_neg ScopeEntry (fun y => y.ident.text == n) e _ (by
          simp only [beq_iff_eq]
          exact fun hh => hne hh.symm),
        @List.find?_cons_of_neg ScopeEntry (fun y => y.ident.text == n) x _ (by
          simp only [beq_iff_eq, hxe]
          exact fun hh => hne hh.symm)]
      exact ih
    · simp only [List.map_cons, if_neg hx]
      by_cases px : (x.ident.text == n) = true
      · rw [@List.find?_cons_of_pos ScopeEntry (fun y => y.ident.text == n) x _ px,
          @List.find?_cons_of_pos ScopeEntry (fun y => y.ident.text == n) x _ px]
      · rw [@List.find?_cons_of_neg ScopeEntry (fun y => y.ident.text == n) x _ px,
          @List.find?_cons_of_neg ScopeEntry (fun y => y.ident.text == n) x _ px]
        exact ih

/-- Characterisation of `scopeInsert`: lookup of the inserted name finds
the new binding, lookup of any other name is unchanged. -/
theorem scopeLookup_scopeInsert (s : List ScopeEntry) (e : ScopeEntry) (n : String) :
    scopeLookup (scopeInsert s e) n =
      if n = e.ident.text then some e else scopeLookup s n := by
  unfold scopeInsert scopeLookup
  by_cases hn : n = e.ident.text
  · rw [if_pos hn]
    by_cases h : s.any (fun x => x.ident.text == e.ident.text) = true
    · rw [if_pos h, hn]
      exact find?_map_replace_self s e h
    · rw [if_neg h, hn]
      rw [List.find?_append]
      have hnone : s.find? (fun y => y.ident.text == e.ident.text) = Option.none := by
        rw [List.find?_eq_none]
        intro x hx hpx
        simp only [List.any_eq_true, not_exists] at h
        exact h x ⟨hx, hpx⟩
      rw [hnone]
      simp [List.find?]
  · rw [if_neg hn]
    by_cases h : s.any (fun x => x.ident.text == e.ident.text) = true
    · rw [if_pos h]
      exact find?_map_replace_other s e n hn
    · rw [if_neg h]
      rw [List.find?_append]
      have hsingle : ([e].find? (fun y => y.ident.text == n)) = Option.none := by
        rw [List.find?_eq_none]
        intro x hx hpx
        simp only [List.mem_singleton] at hx
        subst hx
        simp only [beq_iff_eq] at hpx
        exact hn hpx.symm
      rw [hsingle]
      cases s.find? (fun y => y.ident.text == n) <;> rfl

/-- Inserting alias bindings whose names all differ from `n` leaves the
lookup of `n` unchanged. -/
theorem aliasFold_lookup_other (host : FuncDecl) (n : String) :
    ∀ (ps : List (Ident × CallStmt)) (sc : List ScopeEntry),
      (∀ p ∈ ps, p.1.text ≠ n) →
      scopeLookup (ps.foldl (fun sc p =>
        scopeInsert sc { ident := p.1, obj := ScopeObj.aliasObj host p.2 }) sc) n =
      scopeLookup sc n := by
  intro ps
  induction ps with
  | nil => intro sc _; rfl
  | cons p ps2 ih =>
    intro sc hps
    simp only [List.foldl_cons]
    rw [ih _ (fun q hq => hps q (by simp [hq]))]
    rw [scopeLookup_scopeInsert]
    exact if_neg (fun hh => hps p (by simp) hh.symm)

/-- The declaration walk processes concatenated declaration lists in
sequence. -/
theorem phaseA_append (fuel : Nat) : ∀ (xs ys : List FuncDecl) (st : DeclState),
    phaseA fuel (xs ++ ys) st = phaseA fuel ys (phaseA fuel xs st) := by
  intro xs
  induction xs with
  | nil => intro ys st; rfl
  | cons d xs2 ih =>
    intro ys st
    simp only [List.cons_append, phaseA]
    cases scopeLookup st.scope d.name.text with
    | none => exact ih _ _
    | some entry => exact ih _ _

/-- Behaviour of phase A on declarations with pairwise-distinct names,
none of which is already bound and whose aliases collide with no
declaration name: no duplicates are recorded, unrelated lookups are
unchanged, and every declaration ends up bound to its own entry. -/
theorem phaseA_clean (fuel : Nat) :
    ∀ (decls : List FuncDecl) (st : DeclState),
      (∀ d ∈ decls, scopeLookup st.scope d.name.text = Option.none) →
      ((decls.map (fun d => d.name.text)).Nodup) →
      (∀ d ∈ decls, ∀ a ∈ aliasScan fuel d.body, ∀ d2 ∈ decls,
        a.1.text ≠ d2.name.text) →
      (phaseA fuel decls st).dups = st.dups ∧
      (∀ n : String, (∀ d ∈ decls, n ≠ d.name.text) →
        (∀ d ∈ decls, ∀ a ∈ aliasScan fuel d.body, n ≠ a.1.text) →
        scopeLookup (phaseA fuel decls st).scope n = scopeLookup st.scope n) ∧
      (∀ d ∈ decls, scopeLookup (phaseA fuel decls st).scope d.name.text =
        some { ident := d.name, obj := ScopeObj.declObj d }) := by
  intro decls
  induction decls with
  | nil =>
    intro st _ _ _
    exact ⟨rfl, fun n _ _ => rfl, by simp⟩
  | cons d rest ih =>
    intro st h1 h2 h3
    have hd : scopeLookup st.scope d.name.text = Option.none := h1 d (by simp)
    have hstep : phaseA fuel (d :: rest) st =
        phaseA fuel rest
          { scope := (aliasScan fuel d.body).foldl
              (fun sc p => scopeInsert sc { ident := p.1, obj := ScopeObj.aliasObj d p.2 })
              (scopeInsert st.scope { ident := d.name, obj := ScopeObj.declObj d }),
            dups := st.dups } := by
      simp only [phaseA, hd]
    have hnodup := h2
    simp only [List.map_cons, List.nodup_cons] at hnodup
    have hdnotin : d.name.text ∉ rest.map (fun d2 => d2.name.text) := hnodup.1
    have hdiff : ∀ d2 ∈ rest, d.name.text ≠ d2.name.text := by
      intro d2 hd2 heq
      exact hdnotin (heq ▸ List.mem_map_of_mem _ hd2)
    have halias_d : ∀ a ∈ aliasScan fuel d.body, ∀ d2 ∈ d :: rest,
        a.1.text ≠ d2.name.text := h3 d (by simp)
    -- lookup facts for the scope after inserting d and its aliases
    have hlook : ∀ n : String, n ≠ d.name.text →
        (∀ a ∈ aliasScan fuel d.body, n ≠ a.1.text) →
        scopeLookup ((aliasScan fuel d.body).foldl
          (fun sc p => scopeInsert sc { ident := p.1, obj := ScopeObj.aliasObj d p.2 })
          (scopeInsert st.scope { ident := d.name, obj := ScopeObj.declObj d })) n =
        scopeLookup st.scope n := by
      intro n hn hna
      rw [aliasFold_lookup_other d n _ _ (fun p hp => fun hh => hna p hp hh.symm)]
      rw [scopeLookup_scopeInsert]
      exact if_neg hn
    have hlookd : scopeLookup ((aliasScan fuel d.body).foldl
        (fun sc p => scopeInsert sc { ident := p.1, obj := ScopeObj.aliasObj d p.2 })
        (scopeInsert st.scope { ident := d.name, obj := ScopeObj.declObj d }))
        d.name.text = some { ident := d.name, obj := ScopeObj.declObj d } := by
      rw [aliasFold_lookup_other d d.name.text _ _
        (fun p hp => halias_d p hp d (by simp))]
      rw [scopeLookup_scopeInsert]
      exact if_pos rfl
    -- instantiate the induction hypothesis
    have h1' : ∀ d2 ∈ rest, scopeLookup ((aliasScan fuel d.body).foldl
        (fun sc p => scopeInsert sc { ident := p.1, obj := ScopeObj.aliasObj d p.2 })
        (scopeInsert st.scope { ident := d.name, obj := ScopeObj.declObj d }))
        d2.name.text = Option.none := by
      intro d2 hd2
      rw [hlook d2.name.text (fun heq => hdiff d2 hd2 heq.symm)
        (fun a ha heq => halias_d a ha d2 (by simp [hd2]) heq.symm)]
      exact h1 d2 (by simp [hd2])
    have h3' : ∀ d2 ∈ rest, ∀ a ∈ aliasScan fuel d2.body, ∀ d3 ∈ rest,
        a.1.text ≠ d3.name.text := by
      intro d2 hd2 a ha d3 hd3
      exact h3 d2 (by simp [hd2]) a ha d3 (by simp [hd3])
    obtain ⟨ihd, ihpres, ihdecl⟩ := ih
      { scope := (aliasScan fuel d.body).foldl
          (fun sc p => scopeInsert sc { ident := p.1, obj := ScopeObj.aliasObj d p.2 })
          (scopeInsert st.scope { ident := d.name, obj := ScopeObj.declObj d }),
        dups := st.dups } h1' hnodup.2 h3'
    rw [hstep]
    refine ⟨ihd, ?_, ?_⟩
    · intro n hn hna
      rw [ihpres n (fun d2 hd2 => hn d2 (by simp [hd2]))
        (fun d2 hd2 a ha => hna d2 (by simp [hd2]) a ha)]
      exact hlook n (hn d (by simp)) (hna d (by simp))
    · intro d2 hd2
      rcases List.mem_cons.mp hd2 with rfl | hmem
      · rw [ihpres d2.name.text hdiff
          (fun d3 hd3 a ha heq => h3 d3 (by simp [hd3]) a ha d2 (by simp) heq.symm)]
        exact hlookd
      · exact ihdecl d2 hmem

/-- C3: a module whose top-level declarations contain exactly one pair of
function declarations with the same name (`d1` earlier, `d2` later; all
other names pairwise distinct, and no `as` alias shadowing a declaration
name) makes `SemanticCheck` return a single duplicate-declaration error
listing exactly the two identifiers — the original first, the duplicate
second — regardless of the function bodies, so none of the per-function
checks (duplicate-field, block/source or call checks) contribute to the
result. -/
theorem semanticCheck_duplicate_pair (fuel : Nat) (l1 l2 l3 : List FuncDecl)
    (d1 d2 : FuncDecl)
    (hname : d1.name.text = d2.name.text)
    (hnodup : (((l1 ++ d1 :: l2) ++ l3).map (fun d => d.name.text)).Nodup)
    (halias : ∀ d ∈ l1 ++ d1 :: l2 ++ d2 :: l3, ∀ a ∈ aliasScan fuel d.body,
      ∀ d3 ∈ l1 ++ d1 :: l2 ++ d2 :: l3, a.1.text ≠ d3.name.text) :
    semanticCheck fuel (l1 ++ d1 :: l2 ++ d2 :: l3) =
      Except.error (SemErr.duplicateDecls [d1.name, d2.name]) := by
  have hmod : l1 ++ d1 :: l2 ++ d2 :: l3 = (l1 ++ d1 :: l2) ++ d2 :: l3 := by
    simp
  have hmemP : ∀ x ∈ l1 ++ d1 :: l2, x ∈ l1 ++ d1 :: l2 ++ d2 :: l3 := by
    intro x hx
    rw [hmod]
    exact List.mem_append_left _ hx
  have hmemL3 : ∀ x ∈ l3, x ∈ l1 ++ d1 :: l2 ++ d2 :: l3 := by
    intro x hx
    rw [hmod]
    exact List.mem_append_right _ (by simp [hx])
  have hnodupP : ((l1 ++ d1 :: l2).map (fun d => d.name.text)).Nodup := by
    rw [List.map_append] at hnodup
    exact hnodup.of_append_left
  have hnodupL3 : (l3.map (fun d => d.name.text)).Nodup := by
    rw [List.map_append] at hnodup
    exact hnodup.of_append_right
  have hdisj : ∀ x ∈ l1 ++ d1 :: l2, ∀ y ∈ l3, x.name.text ≠ y.name.text := by
    rw [List.map_append] at hnodup
    intro x hx y hy heq
    exact (List.disjoint_of_nodup_append hnodup)
      (List.mem_map_of_mem _ hx) (heq ▸ List.mem_map_of_mem _ hy)
  obtain ⟨hdups, hpres, hdecl⟩ := phaseA_clean fuel (l1 ++ d1 :: l2)
    { scope := [], dups := [] }
    (fun d _ => rfl) hnodupP
    (fun d hd a ha d3 hd3 => halias d (hmemP d hd) a ha d3 (hmemP d3 hd3))
  have hlookd2 : scopeLookup (phaseA fuel (l1 ++ d1 :: l2)
      { scope := [], dups := [] }).scope d2.name.text =
      some { ident := d1.name, obj := ScopeObj.declObj d1 } := by
    rw [← hname]
    exact hdecl d1 (by simp)
  have hstep2 : phaseA fuel (d2 :: l3)
      (phaseA fuel (l1 ++ d1 :: l2) { scope := [], dups := [] }) =
      phaseA fuel l3
        { scope := (phaseA fuel (l1 ++ d1 :: l2) { scope := [], dups := [] }).scope,
          dups := [d1.name, d2.name] } := by
    simp only [phaseA, hlookd2, hdups, List.isEmpty_nil, if_pos]
  have hl3none : ∀ d ∈ l3, scopeLookup
      (phaseA fuel (l1 ++ d1 :: l2) { scope := [], dups := [] }).scope
      d.name.text = Option.none := by
    intro d hd
    rw [hpres d.name.text
      (fun dP hP heq => hdisj dP hP d hd heq.symm)
      (fun dP hP a ha heq =>
        halias dP (hmemP dP hP) a ha d (hmemL3 d hd) heq.symm)]
    rfl
  obtain ⟨hdups3, _, _⟩ := phaseA_clean fuel l3
    { scope := (phaseA fuel (l1 ++ d1 :: l2) { scope := [], dups := [] }).scope,
      dups := [d1.name, d2.name] }
    hl3none hnodupL3
    (fun d hd a ha d3 hd3 => halias d (hmemL3 d hd) a ha d3 (hmemL3 d3 hd3))
  have hdupsF : (phaseA fuel (l1 ++ d1 :: l2 ++ d2 :: l3)
      { scope := [], dups := [] }).dups = [d1.name, d2.name] := by
    rw [hmod, phaseA_append fuel (l1 ++ d1 :: l2) (d2 :: l3), hstep2, hdups3]
  simp only [semanticCheck, hdupsF]
  rfl

/-- First declaration `fs x() {}` of the duplicate-declaration witness. -/
def dupFuncX1 : FuncDecl :=
  { name := { text := "x", pos := 1 }, ty := { objType := ObjType.filesystem },
    params := [], body := [] }

/-- Second declaration `fs x() {}` of the duplicate-declaration witness. -/
def dupFuncX2 : FuncDecl :=
  { name := { text := "x", pos := 2 }, ty := { objType := ObjType.filesystem },
    params := [], body := [] }

/-- Witness for `semanticCheck_duplicate_pair`: two `fs x() {}` in one
module produce one duplicate-declaration error listing both idents. -/
theorem semanticCheck_duplicate_pair_witness :
    semanticCheck 10 ([] ++ dupFuncX1 :: [] ++ dupFuncX2 :: []) =
      Except.error (SemErr.duplicateDecls [dupFuncX1.name, dupFuncX2.name]) :=
  semanticCheck_duplicate_pair 10 [] [] [] dupFuncX1 dupFuncX2 rfl
    (by decide) (by decide)
